import Mathlib

/-!
# Verification of the lacuna cross-lingual semantic topology engine

A shallow embedding, over exact rational arithmetic, of the numeric core of
the `lacuna` repository:

* `src/python/lib/embeddings.py` — cosine similarity kernel, duplicate
  detection, extremity and weight scores;
* `src/python/agents/validator.py` — the quality-validator gate pipeline;
* `src/python/pipeline.py` — weights, cross-language divergence, ghost flags;
* `src/python/benchmark/metrics.py` — CLAS and ghost-detection rate;
* `src/scripts/embeddings/compute_metrics.py` — lacuna-detection rate;
* `src/scripts/embeddings/project_umap.py` — UMAP dispatch, lacuna flags;
* `src/python/app/umap_projection.py` — `UMAPProjector.calculate_weight`.

Modelling conventions:

* Python floats are modelled as exact rationals (`ℚ`).
* `np.linalg.norm` takes a square root, which has no exact rational value in
  general.  Every function that consumes norms therefore receives the norm
  values as an explicit argument (a parallel list `nrm`, or a function
  `nrmOf : Vec → ℚ`), and theorems that depend on the norm being the true
  Euclidean norm constrain it with `IsSqrt (nrm v) (sumSq v)`.
* External collaborators (the sentence-transformer embedder, the Mistral
  LLM, the fitted UMAP reducer, sklearn's k-NN distances) are modelled as
  function parameters: the surrounding control flow is translated from the
  source, the collaborator itself is an oracle.
* Python `dict`s are modelled as insertion-ordered association lists with
  the same assignment semantics (`dictInsert` overwrites in place,
  `dictInsertIfAbsent` mirrors `if k not in d: d[k] = v`); lookups use
  `List.lookup` (first match).
-/

/-- An embedding vector: a row of a NumPy matrix. -/
abbrev Vec := List ℚ

/-- `np.dot` on two vectors. -/
def dot (a b : Vec) : ℚ := (List.zipWith (· * ·) a b).sum

/-- Sum of squares of a vector: the square of its Euclidean norm. -/
def sumSq (v : Vec) : ℚ := dot v v

/-- `s` is the (real) square root of `x`: the defining property of the value
`np.linalg.norm` returns, used to constrain the norm oracles. -/
def IsSqrt (s x : ℚ) : Prop := 0 ≤ s ∧ s * s = x

instance (s x : ℚ) : Decidable (IsSqrt s x) := by unfold IsSqrt; infer_instance

/-- The epsilon `1e-10` added to denominators throughout the code base. -/
def EPS : ℚ := 1 / 10 ^ 10

/-- `np.clip(x, lo, hi)`. -/
def clip (x lo hi : ℚ) : ℚ := min (max x lo) hi

/-- `np.mean` of a list (0 on the empty list; call sites guard emptiness). -/
def listMean (l : List ℚ) : ℚ := l.sum / l.length

/-- `max(l)` of a nonempty list, via left fold like `np.max`; 0 on `[]`. -/
def listMax : List ℚ → ℚ
  | [] => 0
  | h :: t => t.foldl max h

/-- Python dict assignment `d[k] = v`: overwrite in place if the key exists,
otherwise append (insertion order preserved). -/
def dictInsert {α : Type} (m : List (String × α)) (k : String) (v : α) :
    List (String × α) :=
  if m.any (fun p => p.1 == k) then
    m.map (fun p => if p.1 == k then (k, v) else p)
  else m ++ [(k, v)]

/-- Python `if k not in d: d[k] = v`. -/
def dictInsertIfAbsent {α : Type} (m : List (String × α)) (k : String) (v : α) :
    List (String × α) :=
  if m.any (fun p => p.1 == k) then m else m ++ [(k, v)]

/-! ## `src/python/lib/embeddings.py` -/

/-- One row of `embeddings / (norms + 1e-10)`: a vector divided by its
(externally computed) norm plus epsilon. -/
def normalizeRow (v : Vec) (nv : ℚ) : Vec := v.map (· / (nv + EPS))

/-- Matrix entry accessor `M[i][j]` with NumPy-style 0 default out of range. -/
def entry (M : List (List ℚ)) (i j : ℕ) : ℚ := (M.getD i []).getD j 0

/-- `cosine_similarity_matrix(embeddings)` (embeddings.py:53-67): normalize
each row by its norm plus `1e-10`, then take all pairwise dot products.
`nrm` is the list of row norms produced by `np.linalg.norm(·, axis=1)`. -/
def cosineSimilarityMatrix (E : List Vec) (nrm : List ℚ) : List (List ℚ) :=
  let normalized := List.zipWith normalizeRow E nrm
  normalized.map (fun ri => normalized.map (fun rj => dot ri rj))

/-- `find_duplicates(embeddings, threshold)` (embeddings.py:70-91): all pairs
`(i, j, sim)` with `i < j` and `sim_matrix[i, j] > threshold`. -/
def findDuplicates (E : List Vec) (nrm : List ℚ) (threshold : ℚ) :
    List (ℕ × ℕ × ℚ) :=
  let M := cosineSimilarityMatrix E nrm
  let n := E.length
  (List.range n).flatMap (fun i =>
    (List.range' (i + 1) (n - (i + 1))).filterMap (fun j =>
      if entry M i j > threshold then some (i, j, entry M i j) else none))

/-- `compute_extremity_score(embedding, reference_embeddings)`
(embeddings.py:128-161): returns 1.0 on an empty reference set, otherwise
`clip(0.7 * max_sim + 0.3 * mean_sim, 0, 1)` over cosine similarities to the
reference rows.  `nrmOf` is the `np.linalg.norm` oracle. -/
def computeExtremityScore (nrmOf : Vec → ℚ) (embedding : Vec)
    (referenceEmbeddings : List Vec) : ℚ :=
  if referenceEmbeddings.length = 0 then 1
  else
    let embNormalized := normalizeRow embedding (nrmOf embedding)
    let similarities := referenceEmbeddings.map
      (fun r => dot (normalizeRow r (nrmOf r)) embNormalized)
    let maxSim := listMax similarities
    let meanSim := listMean similarities
    clip (maxSim * (7 / 10) + meanSim * (3 / 10)) 0 1

/-- `compute_embedding_weight(embedding, all_embeddings)`
(embeddings.py:164-191): the norm of `embedding` rescaled by the min/max
norm of the set, clipped to `[0, 1]`; 0.5 when the norm spread is below
`1e-6`.  (`np.min`/`np.max` raise on an empty set; call sites always pass a
nonempty one, and the model's 0 default is never reached under the theorems'
hypotheses.) -/
def computeEmbeddingWeight (nrmOf : Vec → ℚ) (embedding : Vec)
    (allEmbeddings : List Vec) : ℚ :=
  let norm := nrmOf embedding
  let allNorms := allEmbeddings.map nrmOf
  let minNorm := (allNorms.min?).getD 0
  let maxNorm := (allNorms.max?).getD 0
  if maxNorm - minNorm < 1 / 10 ^ 6 then 1 / 2
  else clip ((norm - minNorm) / (maxNorm - minNorm)) 0 1

/-! ## `src/python/app/umap_projection.py` -/

/-- `UMAPProjector.calculate_weight` (umap_projection.py:75-108): the same
norm rescaling against stored per-language `min_norm`/`max_norm` stats, with
an exact-equality degenerate test and a `max(0, min(1, ·))` clamp. -/
def calculateWeight (nrmOf : Vec → ℚ) (embedding : Vec)
    (minNorm maxNorm : ℚ) : ℚ :=
  if maxNorm = minNorm then 1 / 2
  else max 0 (min 1 ((nrmOf embedding - minNorm) / (maxNorm - minNorm)))

/-! ## `src/python/agents/validator.py`

The validator mixes pure numeric gates with two external collaborators: the
sentence-transformer embedder (`embed_texts`) and the Mistral LLM
(`llm_validate_frames`).  Both are modelled as parameters: `embed` maps a
definition text to its embedding row, `nrmOf` is the `np.linalg.norm`
oracle, and `llmRej` is the id→reason mapping the LLM returned (`[]` when
`use_llm` is false or the LLM call failed).  Frame metadata not consulted by
the gates (labels, cluster) is omitted from the frame record. -/

/-- An extracted frame, as far as validation consults it. -/
structure ExtractedFrame where
  id : String
  confidence : ℚ
  definitions : List (String × String)
deriving DecidableEq

/-- The content of a recorded human-readable rejection-reason string, one
constructor per gate (validator.py:248, 142, 296, 314, 359). -/
inductive Reason
  | lowConfidence (confidence minimum : ℚ)
  | llm (msg : String)
  | duplicate (siblingId lang : String) (sim : ℚ)
  | noStructuralDifference (sim maxAllowed : ℚ)
  | outlier (extremity : ℚ)
deriving DecidableEq

/-- The `rejection_reasons` dict. -/
abbrev ReasonMap := List (String × Reason)

-- validation thresholds (validator.py:155-160)
def DUPLICATE_THRESHOLD : ℚ := 85 / 100
def CROSS_LANG_SIMILARITY_MAX : ℚ := 92 / 100
def EXTREMITY_MIN : ℚ := 35 / 100
def CONFIDENCE_MIN : ℚ := 1 / 2

/-- First pass (validator.py:243-250): split frames by extraction
confidence, recording a reason for each rejection.  Returns
(confident, rejected, reasons). -/
def confidencePass (confidenceMin : ℚ) :
    List ExtractedFrame → List ExtractedFrame × List ExtractedFrame × ReasonMap
  | [] => ([], [], [])
  | f :: rest =>
    let (conf, rej, rs) := confidencePass confidenceMin rest
    if f.confidence < confidenceMin then
      (conf, f :: rej, dictInsert rs f.id (.lowConfidence f.confidence confidenceMin))
    else (f :: conf, rej, rs)

/-- `rejection_reasons.update(llm_rejections)` (validator.py:257). -/
def llmUpdate (rs : ReasonMap) (llmRej : List (String × String)) : ReasonMap :=
  llmRej.foldl (fun m p => dictInsert m p.1 (.llm p.2)) rs

/-- Embedding each confident frame's definition per language
(validator.py:268-285); languages with no definitions are skipped. -/
def embeddingsByLang (frames : List ExtractedFrame) (embed : String → Vec)
    (languages : List String) : List (String × List String × List Vec) :=
  languages.filterMap (fun lang =>
    let pairs := frames.filterMap (fun f =>
      (f.definitions.lookup lang).map (fun d => (f.id, d)))
    if pairs.isEmpty then none
    else some (lang, pairs.map (·.1), pairs.map (fun p => embed p.2)))

/-- Inner loop of the duplicate gate (validator.py:291-296): for each flagged
pair keep the first index, reject the second, without overwriting an
existing reason. -/
def duplicatePassLang (ids : List String) (lang : String) :
    List (ℕ × ℕ × ℚ) → List String × ReasonMap → List String × ReasonMap
  | [], acc => acc
  | (i, j, sim) :: rest, (dupIds, rs) =>
    let dupId := ids.getD j ""
    duplicatePassLang ids lang rest
      (dupIds ++ [dupId],
       dictInsertIfAbsent rs dupId (.duplicate (ids.getD i "") lang sim))

/-- The duplicate gate over all languages (validator.py:288-296). -/
def duplicatePass (nrmOf : Vec → ℚ) (dupThreshold : ℚ) :
    List (String × List String × List Vec) →
    List String × ReasonMap → List String × ReasonMap
  | [], acc => acc
  | (lang, ids, E) :: rest, acc =>
    duplicatePass nrmOf dupThreshold rest
      (duplicatePassLang ids lang (findDuplicates E (E.map nrmOf) dupThreshold) acc)

/-- `(concept_id, lang, embedding)` triples in iteration order over
`embeddings_by_lang` (validator.py:180-185, 322-325). -/
def allLangPairs (ebl : List (String × List String × List Vec)) :
    List (String × String × Vec) :=
  ebl.flatMap (fun p => (p.2.1.zip p.2.2).map (fun q => (q.1, p.1, q.2)))

/-- Keys in order of first appearance: insertion order of a Python dict
keyed by concept id. -/
def keysInOrder {α : Type} (ps : List (String × α)) : List String :=
  ps.foldl (fun acc p => if p.1 ∈ acc then acc else acc ++ [p.1]) []

/-- The `{lang: embedding}` dict of one concept (validator.py:180-185):
later `(id, lang)` assignments overwrite earlier ones. -/
def langEmbsOf (pairs : List (String × String × Vec)) (cid : String) :
    List (String × Vec) :=
  (pairs.filter (fun p => p.1 == cid)).foldl
    (fun m p => dictInsert m p.2.1 p.2.2) []

/-- All pairwise cosine similarities, upper-triangle order, with the
`dot / (norm*norm + 1e-10)` formula shared by validator.py:196-203 and
pipeline.py:159-163. -/
def pairSims (nrmOf : Vec → ℚ) : List Vec → List ℚ
  | [] => []
  | v :: rest =>
    rest.map (fun w => dot v w / (nrmOf v * nrmOf w + EPS)) ++ pairSims nrmOf rest

/-- `compute_cross_language_similarity` (validator.py:163-206): mean pairwise
similarity across languages, for concepts embedded in at least two. -/
def crossLanguageSimilarities (nrmOf : Vec → ℚ)
    (ebl : List (String × List String × List Vec)) (languages : List String) :
    List (String × ℚ) :=
  if languages.length < 2 then []
  else
    let pairs := allLangPairs ebl
    (keysInOrder pairs).filterMap (fun cid =>
      let embs := (langEmbsOf pairs cid).map (·.2)
      if embs.length < 2 then none
      else some (cid, listMean (pairSims nrmOf embs)))

/-- The cross-language-similarity gate (validator.py:308-317): rejects and
(unconditionally) records a reason for every concept above the ceiling. -/
def boringPass (crossLangMax : ℚ) :
    List (String × ℚ) → List String × ReasonMap → List String × ReasonMap
  | [], acc => acc
  | (cid, sim) :: rest, (boringIds, rs) =>
    if sim > crossLangMax then
      boringPass crossLangMax rest
        (boringIds ++ [cid], dictInsert rs cid (.noStructuralDifference sim crossLangMax))
    else boringPass crossLangMax rest (boringIds, rs)

/-- The `extremity_scores[id]` list (validator.py:319-325): one score per
language embedding of the concept, in iteration order. -/
def extremityScoresOf (nrmOf : Vec → ℚ)
    (ebl : List (String × List String × List Vec)) (refE : List Vec)
    (cid : String) : List ℚ :=
  (allLangPairs ebl).filterMap (fun p =>
    if p.1 == cid then some (computeExtremityScore nrmOf p.2.2 refE) else none)

/-- Final validation pass (validator.py:337-374): each confident frame is
routed to exactly one of valid/rejected, with the extremity gate recording
its reason on the way. -/
def finalPass (llmRej : List (String × String)) (dupIds boringIds : List String)
    (extScores : Option (String → List ℚ)) (extremityMin : ℚ) :
    List ExtractedFrame → ReasonMap →
    List ExtractedFrame × List ExtractedFrame × ReasonMap
  | [], rs => ([], [], rs)
  | f :: rest, rs =>
    if (llmRej.lookup f.id).isSome then
      let (v, r, rs') := finalPass llmRej dupIds boringIds extScores extremityMin rest rs
      (v, f :: r, rs')
    else if f.id ∈ dupIds then
      let (v, r, rs') := finalPass llmRej dupIds boringIds extScores extremityMin rest rs
      (v, f :: r, rs')
    else if f.id ∈ boringIds then
      let (v, r, rs') := finalPass llmRej dupIds boringIds extScores extremityMin rest rs
      (v, f :: r, rs')
    else
      match extScores with
      | some scoresOf =>
        if (scoresOf f.id).isEmpty then
          let (v, r, rs') := finalPass llmRej dupIds boringIds extScores extremityMin rest rs
          (f :: v, r, rs')
        else
          let avg := listMean (scoresOf f.id)
          if avg < extremityMin then
            let (v, r, rs') := finalPass llmRej dupIds boringIds extScores extremityMin rest
              (dictInsert rs f.id (.outlier avg))
            (v, f :: r, rs')
          else
            let (v, r, rs') := finalPass llmRej dupIds boringIds extScores extremityMin rest rs
            (f :: v, r, rs')
      | none =>
        let (v, r, rs') := finalPass llmRej dupIds boringIds extScores extremityMin rest rs
        (f :: v, r, rs')

/-- The validator's output record. -/
structure ValidationResult where
  valid : List ExtractedFrame
  rejected : List ExtractedFrame
  rejectionReasons : ReasonMap
deriving DecidableEq

/-- `validate_frames` (validator.py:209-382), gates in source order:
confidence, LLM, duplicate, cross-language similarity, extremity.  (The
uniformity diagnostic, validator.py:298-306, only prints warnings and does
not touch the result.) -/
def validateFrames (frames : List ExtractedFrame)
    (referenceEmbeddings : Option (List Vec)) (languages : List String)
    (embed : String → Vec) (nrmOf : Vec → ℚ) (llmRej : List (String × String))
    (duplicateThreshold crossLangMax extremityMin confidenceMin : ℚ) :
    ValidationResult :=
  if frames.isEmpty then ⟨[], [], []⟩
  else
    let cp := confidencePass confidenceMin frames
    let confident := cp.1
    let rejected0 := cp.2.1
    let reasons0 := cp.2.2
    if confident.isEmpty then ⟨[], rejected0, reasons0⟩
    else
      let reasons1 := llmUpdate reasons0 llmRej
      let ebl := embeddingsByLang confident embed languages
      let dp := duplicatePass nrmOf duplicateThreshold ebl ([], reasons1)
      let crossSims := crossLanguageSimilarities nrmOf ebl languages
      let bp := boringPass crossLangMax crossSims ([], dp.2)
      let extScores := referenceEmbeddings.map (fun refE => extremityScoresOf nrmOf ebl refE)
      let fp := finalPass llmRej dp.1 bp.1 extScores extremityMin confident bp.2
      ⟨fp.1, rejected0 ++ fp.2.1, fp.2.2⟩

/-! ## `src/python/pipeline.py` -/

/-- A validated frame, as far as the score deriver consults it:
`embeddings` is the per-language embedding dict. -/
structure ValidatedFrame where
  id : String
  embeddings : List (String × Vec)
deriving DecidableEq

/-- The `(id, embedding)` pairs gathered for one language
(pipeline.py:107-115). -/
def gatherLang (frames : List ValidatedFrame) (lang : String) :
    List (String × Vec) :=
  frames.filterMap (fun f => (f.embeddings.lookup lang).map (fun e => (f.id, e)))

/-- `compute_weights` (pipeline.py:95-128): per language, the norm-based
weight of each gathered embedding against the full gathered set; result is
the nested `{concept_id: {lang: weight}}` dict. -/
def computeWeights (nrmOf : Vec → ℚ) (frames : List ValidatedFrame)
    (languages : List String) : List (String × List (String × ℚ)) :=
  languages.foldl (fun weights lang =>
    let gathered := gatherLang frames lang
    let allEmbeddings := gathered.map (·.2)
    if gathered.isEmpty then weights
    else gathered.foldl (fun w p =>
      dictInsert w p.1
        (dictInsert ((w.lookup p.1).getD []) lang
          (computeEmbeddingWeight nrmOf p.2 allEmbeddings))) weights) []

/-- The per-language ghost decision of `determine_ghost_status`
(pipeline.py:197-214): absolute-weight signal, then the guarded
cross-language ratio signal over the other languages' weights
(missing weights default to 0.5). -/
def ghostFlagFor (frameWeights : List (String × ℚ)) (languages : List String)
    (weightThreshold weightRatioThreshold : ℚ) (lang : String) : Bool :=
  let w := (frameWeights.lookup lang).getD (1 / 2)
  if w < weightThreshold then true
  else
    let otherWeights := (languages.filter (fun l => l != lang)).map
      (fun l => (frameWeights.lookup l).getD (1 / 2))
    match otherWeights.max? with
    | none => false
    | some maxOther =>
      if maxOther > 1 / 100 ∧ w > 1 / 100 ∧ maxOther / w > weightRatioThreshold
      then true else false

/-- `determine_ghost_status` (pipeline.py:172-216): the
`{concept_id: {lang: is_ghost}}` dict. -/
def determineGhostStatus (nrmOf : Vec → ℚ) (frames : List ValidatedFrame)
    (languages : List String) (weightThreshold weightRatioThreshold : ℚ) :
    List (String × List (String × Bool)) :=
  let weights := computeWeights nrmOf frames languages
  frames.foldl (fun gs f =>
    let frameWeights := (weights.lookup f.id).getD []
    dictInsert gs f.id (languages.foldl (fun m lang =>
      dictInsert m lang
        (ghostFlagFor frameWeights languages weightThreshold weightRatioThreshold lang))
      [])) []

/-- `ghost_status.get(frame.id, {}).get(lang, False)`: how
`validated_to_concepts` reads the ghost dict (pipeline.py:251). -/
def ghostLookup (gs : List (String × List (String × Bool))) (fid lang : String) :
    Bool :=
  (((gs.lookup fid).getD []).lookup lang).getD false

/-- The per-frame divergence of `compute_cross_language_divergence`
(pipeline.py:146-167): 0 for fewer than two language embeddings, otherwise
1 minus the mean pairwise similarity. -/
def divergenceOf (nrmOf : Vec → ℚ) (frame : ValidatedFrame)
    (languages : List String) : ℚ :=
  let langEmbeddings := languages.filterMap (fun lang => frame.embeddings.lookup lang)
  if langEmbeddings.length < 2 then 0
  else 1 - listMean (pairSims nrmOf langEmbeddings)

/-- `compute_cross_language_divergence` (pipeline.py:131-169). -/
def computeCrossLanguageDivergence (nrmOf : Vec → ℚ)
    (frames : List ValidatedFrame) (languages : List String) :
    List (String × ℚ) :=
  frames.foldl (fun d f => dictInsert d f.id (divergenceOf nrmOf f languages)) []

/-! ## `src/python/benchmark/metrics.py` -/

/-- One concept's CLAS contribution (metrics.py:88-95): cosine similarity of
its EN and DE embeddings, each normalized by `norm + 1e-10`. -/
def clasContribution (nrmOf : Vec → ℚ) (en de : Vec) : ℚ :=
  dot (normalizeRow en (nrmOf en)) (normalizeRow de (nrmOf de))

/-- `compute_clas` (metrics.py:66-101): `none` models the `ValueError` on
mismatched lengths; otherwise the average and the per-concept dict.  (The
call contract supplies one concept id per embedding row.) -/
def computeClas (nrmOf : Vec → ℚ) (embeddingsEn embeddingsDe : List Vec)
    (conceptIds : List String) : Option (ℚ × List (String × ℚ)) :=
  if embeddingsEn.length ≠ embeddingsDe.length then none
  else
    let perConcept := (conceptIds.zip (embeddingsEn.zip embeddingsDe)).foldl
      (fun m p => dictInsert m p.1 (clasContribution nrmOf p.2.1 p.2.2)) []
    some (listMean (perConcept.map (·.2)), perConcept)

/-- One step of the ghost scan of `compute_ghost_detection_rate`
(metrics.py:234-241): accumulate (ghost_scores, detected, total_ghosts)
over one `(concept_id, is_ghost)` entry. -/
def ghostScanStep (weights : List (String × ℚ)) (weightThreshold : ℚ)
    (acc : List (String × ℚ) × ℕ × ℕ) (p : String × Bool) :
    List (String × ℚ) × ℕ × ℕ :=
  match p.2, weights.lookup p.1 with
  | true, some w =>
    (dictInsert acc.1 p.1 w,
     (if w < weightThreshold then acc.2.1 + 1 else acc.2.1), acc.2.2 + 1)
  | _, _ => acc

/-- `compute_ghost_detection_rate` (metrics.py:200-244): weight every
concept, then over the ghost-flag dict count expected (flag true, weight
known) and detected (weight < threshold); rate is `detected / total` when
any ghost is expected and `0.0` otherwise. -/
def computeGhostDetectionRate (nrmOf : Vec → ℚ) (embeddings : List Vec)
    (conceptIds : List String) (ghostFlags : List (String × Bool))
    (weightThreshold : ℚ) : ℚ × List (String × ℚ) :=
  let weights := (conceptIds.zip embeddings).foldl
    (fun m p => dictInsert m p.1 (computeEmbeddingWeight nrmOf p.2 embeddings)) []
  let scan := ghostFlags.foldl (ghostScanStep weights weightThreshold) ([], 0, 0)
  (if scan.2.2 > 0 then (scan.2.1 : ℚ) / (scan.2.2 : ℚ) else 0, scan.1)

/-! ## `src/scripts/embeddings/compute_metrics.py` -/

/-- Python `round(x, 4)` in exact arithmetic: round half to even at the 4th
decimal. -/
def roundHalfEven (x : ℚ) : ℤ :=
  let f := ⌊x⌋
  let r := x - (f : ℚ)
  if r < 1 / 2 then f
  else if 1 / 2 < r then f + 1
  else if f % 2 = 0 then f else f + 1

/-- `round(x, 4)`. -/
def round4 (x : ℚ) : ℚ := (roundHalfEven (x * 10 ^ 4) : ℚ) / 10 ^ 4

/-- Curated concept metadata (`concepts_input.json` entry). -/
structure ConceptMeta where
  id : String
  cluster : String
  lacuna : List (String × Bool)
deriving DecidableEq

/-- A model's per-concept output record (`{model}.json` entry); an absent
JSON key is the empty dict. -/
structure ModelConcept where
  positions : List (String × (ℚ × ℚ))
  lacuna : List (String × Bool)
  clusters : List (String × ℤ)
deriving DecidableEq

/-- The lacuna ground-truth flag (compute_metrics.py:205-209):
model-derived when present, else curated, else false. -/
def lacunaFlagOf (cd : Option ModelConcept) (c : ConceptMeta) (lang : String) :
    Bool :=
  match cd with
  | some d =>
    match d.lacuna.lookup lang with
    | some b => b
    | none => (c.lacuna.lookup lang).getD false
  | none => (c.lacuna.lookup lang).getD false

/-- The cluster key of a non-lacuna concept (compute_metrics.py:218-224):
model-derived integer label (stringified) when present, else curated. -/
def clusterKeyOf (cd : ModelConcept) (c : ConceptMeta) (lang : String) : String :=
  match cd.clusters.lookup lang with
  | some k => toString k
  | none => c.cluster

/-- First loop of `compute_lacuna_detection` (compute_metrics.py:196-227):
collect expected lacunae and the positions of non-lacuna concepts per
cluster. -/
def centroidPhase (modelConcepts : List (String × ModelConcept))
    (conceptMap : List (String × ConceptMeta)) (conceptOrder : List String)
    (lang : String) : List String × List (String × List (ℚ × ℚ)) :=
  conceptOrder.foldl (fun (acc : List String × List (String × List (ℚ × ℚ))) cid =>
    match conceptMap.lookup cid with
    | none => acc
    | some c =>
      let cd := modelConcepts.lookup cid
      if lacunaFlagOf cd c lang then (acc.1 ++ [cid], acc.2)
      else
        match cd with
        | none => acc
        | some d =>
          match d.positions.lookup lang with
          | none => acc
          | some pos =>
            let key := clusterKeyOf d c lang
            (acc.1, dictInsert acc.2 key (((acc.2.lookup key).getD []) ++ [pos])))
    ([], [])

/-- Componentwise mean of a point list (compute_metrics.py:230-233). -/
def meanPoint (ps : List (ℚ × ℚ)) : ℚ × ℚ :=
  ((ps.map (·.1)).sum / ps.length, (ps.map (·.2)).sum / ps.length)

/-- Cluster centroids from the collected positions. -/
def centroidsOf (cps : List (String × List (ℚ × ℚ))) :
    List (String × (ℚ × ℚ)) :=
  cps.map (fun p => (p.1, meanPoint p.2))

/-- Second loop of `compute_lacuna_detection` (compute_metrics.py:236-259):
an expected lacuna is detected when its data is missing, its cluster has no
centroid, or it sits more than 15 units from its cluster centroid.  `nrm2`
is the `np.linalg.norm` oracle on 2D difference vectors. -/
def detectionPhase (nrm2 : ℚ × ℚ → ℚ)
    (modelConcepts : List (String × ModelConcept))
    (conceptMap : List (String × ConceptMeta))
    (centroids : List (String × (ℚ × ℚ))) (lang : String)
    (expected : List String) : List String :=
  expected.foldl (fun detected cid =>
    match conceptMap.lookup cid, modelConcepts.lookup cid with
    | some c, some d =>
      (match d.positions.lookup lang with
       | none => detected ++ [cid]
       | some pos =>
         let lacunaCluster :=
           match d.clusters.lookup lang with
           | some k => toString k
           | none => c.cluster
         match centroids.lookup lacunaCluster with
         | none => detected ++ [cid]
         | some centroid =>
           if nrm2 (pos.1 - centroid.1, pos.2 - centroid.2) > 15
           then detected ++ [cid] else detected)
    | _, _ => detected ++ [cid]) []

/-- One language's reported lacuna-detection stats. -/
structure LanguageLacunaStats where
  rate : ℚ
  expected : ℕ
  detected : ℕ
deriving DecidableEq

/-- The report of `compute_lacuna_detection`. -/
structure LacunaDetectionResult where
  perLanguage : List (String × LanguageLacunaStats)
  averageRate : ℚ
deriving DecidableEq

/-- The reported-rate convention of one `compute_lacuna_detection`
per-language record: 1.0 when nothing is expected, otherwise the rounded
ratio of the reported counts. -/
def LacunaRateOk (st : LanguageLacunaStats) : Prop :=
  (st.expected = 0 → st.rate = 1) ∧
  (0 < st.expected → st.rate = round4 ((st.detected : ℚ) / st.expected))

/-- `compute_lacuna_detection` (compute_metrics.py:178-275). -/
def computeLacunaDetection (nrm2 : ℚ × ℚ → ℚ)
    (modelConcepts : List (String × ModelConcept)) (conceptOrder : List String)
    (conceptMetas : List ConceptMeta) (languages : List String) :
    LacunaDetectionResult :=
  let conceptMap := conceptMetas.foldl (fun m c => dictInsert m c.id c) []
  let scan := languages.foldl
    (fun (acc : List (String × LanguageLacunaStats) × ℚ × ℕ) lang =>
      let cp := centroidPhase modelConcepts conceptMap conceptOrder lang
      let expected := cp.1
      let centroids := centroidsOf cp.2
      let detected := detectionPhase nrm2 modelConcepts conceptMap centroids lang expected
      let rate : ℚ :=
        if expected.isEmpty then 1
        else (detected.length : ℚ) / (max expected.length 1 : ℕ)
      (dictInsert acc.1 lang ⟨round4 rate, expected.length, detected.length⟩,
       (if expected.isEmpty then acc.2.1 else acc.2.1 + rate),
       (if expected.isEmpty then acc.2.2 else acc.2.2 + 1)))
    ([], 0, 0)
  ⟨scan.1, round4 (scan.2.1 / (max scan.2.2 1 : ℕ))⟩

/-! ## `src/scripts/embeddings/project_umap.py` -/

/-- `project_language(vectors, n_neighbors=10, ...)` (project_umap.py:86-98):
fewer than 4 vectors short-circuit to the zero positions; otherwise the UMAP
reduction runs with `min(n_neighbors, len(vectors) - 1)` neighbors.
`reducer` stands for `umap.UMAP(...).fit_transform` (external library),
applied to the `n_neighbors` value actually passed. -/
def projectLanguage (reducer : ℕ → List Vec → List (ℚ × ℚ))
    (vectors : List Vec) (nNeighbors : ℕ) : List (ℚ × ℚ) :=
  if vectors.length < 4 then vectors.map (fun _ => ((0 : ℚ), (0 : ℚ)))
  else reducer (min nNeighbors (vectors.length - 1)) vectors

/-- `np.median` on a list. -/
def npMedian (l : List ℚ) : ℚ :=
  let s := l.mergeSort (· ≤ ·)
  let n := l.length
  if n % 2 = 1 then s.getD (n / 2) 0
  else (s.getD (n / 2 - 1) 0 + s.getD (n / 2) 0) / 2

/-- `np.percentile(l, 75)` with the default linear interpolation. -/
def npPercentile75 (l : List ℚ) : ℚ :=
  let s := l.mergeSort (· ≤ ·)
  let n := l.length
  if n = 0 then 0
  else
    let pos : ℚ := (3 / 4) * ((n : ℚ) - 1)
    let lo : ℕ := (⌊pos⌋).toNat
    let frac : ℚ := pos - (⌊pos⌋ : ℚ)
    if lo + 1 < n then s.getD lo 0 + frac * (s.getD (lo + 1) 0 - s.getD lo 0)
    else s.getD lo 0

/-- `detect_lacunae(lang_vectors, languages, k=5, threshold=2.0)`
(project_umap.py:144-196).  `knnAvg lang` stands for the per-concept average
k-NN distances that `sklearn.neighbors.NearestNeighbors` (external) returns
for that language's normalized vectors. -/
def detectLacunae (langVectors : List (String × List Vec))
    (languages : List String) (knnAvg : String → List ℚ) (k : ℕ)
    (threshold : ℚ) : List (ℕ × List (String × Bool)) :=
  let nConcepts := ((langVectors.lookup "en").getD []).length
  let kActual := min k (nConcepts - 1)
  if kActual < 1 then []
  else
    let enKnnAvg := knnAvg "en"
    let enMedian := npMedian enKnnAvg
    (List.range nConcepts).map (fun i =>
      (i, languages.foldl (fun m lang =>
        if lang = "en" then dictInsert m lang false
        else
          let langKnnAvg := knnAvg lang
          let langP75 := npPercentile75 langKnnAvg
          let enD := enKnnAvg.getD i 0
          let langD := langKnnAvg.getD i 0
          let flag :=
            if enD > 0 ∧ langD / enD > threshold then true
            else if enD < enMedian ∧ langD > langP75 then true
            else false
          dictInsert m lang flag) []))

/-- `lacuna_map.get(i, {}).get(lang, False)`: how the script reads the
lacuna dict (project_umap.py:349, 373). -/
def lacunaFlagLookup (m : List (ℕ × List (String × Bool))) (i : ℕ)
    (lang : String) : Bool :=
  (((m.lookup i).getD []).lookup lang).getD false

/-- The condition under which the final pass (validator.py:337-374) routes a
confident frame to `rejected` rather than `valid`: an LLM rejection, a
duplicate flag, a cross-language-similarity flag, or a non-empty extremity
score list averaging below the minimum. -/
def finalRejects (llmRej : List (String × String))
    (dupIds boringIds : List String) (extScores : Option (String → List ℚ))
    (extremityMin : ℚ) (cid : String) : Prop :=
  (llmRej.lookup cid).isSome = true ∨ cid ∈ dupIds ∨ cid ∈ boringIds ∨
    ∃ scoresOf, extScores = some scoresOf ∧
      (scoresOf cid).isEmpty = false ∧ listMean (scoresOf cid) < extremityMin

/-! ## Dictionary and fold lemmas -/

theorem lookup_overwrite {α : Type} (t : List (String × α)) (k : String) (v : α) :
    (t.map (fun p => if p.1 == k then (k, v) else p)).lookup k =
      if t.any (fun p => p.1 == k) then some v else none := by
  induction t with
  | nil => simp
  | cons p t ih =>
    obtain ⟨a, b⟩ := p
    by_cases hp : a = k
    · simp [hp, List.lookup_cons]
    · simp only [List.map_cons, List.any_cons]
      rw [if_neg (by simpa using hp), List.lookup_cons]
      simp only [beq_false_of_ne hp, beq_false_of_ne (Ne.symm hp),
        Bool.false_or, cond_false]
      exact ih

theorem lookup_overwrite_ne {α : Type} (t : List (String × α)) (k k' : String)
    (v : α) (h : k' ≠ k) :
    (t.map (fun p => if p.1 == k' then (k', v) else p)).lookup k = t.lookup k := by
  induction t with
  | nil => simp
  | cons p t ih =>
    obtain ⟨a, b⟩ := p
    simp only [List.map_cons]
    by_cases hp : a = k'
    · subst hp
      rw [if_pos (by simp), List.lookup_cons, List.lookup_cons,
        beq_false_of_ne (Ne.symm h)]
      simpa using ih
    · rw [if_neg (by simpa using hp), List.lookup_cons, List.lookup_cons]
      by_cases hk : k == a
      · simp [hk]
      · simp only [Bool.not_eq_true] at hk
        rw [hk]
        simp only [cond_false]
        simpa using ih

theorem lookup_of_not_any {α : Type} (m : List (String × α)) (k : String)
    (h : ¬m.any (fun p => p.1 == k) = true) : m.lookup k = none := by
  rw [List.lookup_eq_none_iff]
  intro p hp
  have hne : ¬(p.1 == k) = true := fun hk => h (List.any_eq_true.mpr ⟨p, hp, hk⟩)
  simp only [beq_iff_eq] at hne
  simpa [bne_iff_ne] using fun hk => hne hk.symm

theorem lookup_dictInsert_self {α : Type} (m : List (String × α)) (k : String)
    (v : α) : (dictInsert m k v).lookup k = some v := by
  unfold dictInsert
  split
  · rename_i h
    rw [lookup_overwrite, if_pos h]
  · rename_i h
    rw [List.lookup_append, lookup_of_not_any m k h]
    simp

theorem lookup_dictInsert_ne {α : Type} (m : List (String × α)) (k k' : String)
    (v : α) (h : k' ≠ k) : (dictInsert m k' v).lookup k = m.lookup k := by
  unfold dictInsert
  split
  · exact lookup_overwrite_ne m k k' v h
  · rw [List.lookup_append]
    have h1 : List.lookup k [(k', v)] = none := by
      rw [List.lookup_cons, beq_false_of_ne (fun hk => h hk.symm)]
      rfl
    rw [h1, Option.or_none]

theorem lookup_dictInsertIfAbsent_some {α : Type} (m : List (String × α))
    (k k' : String) (v v' : α) (h : m.lookup k = some v) :
    (dictInsertIfAbsent m k' v').lookup k = some v := by
  unfold dictInsertIfAbsent
  split
  · exact h
  · rw [List.lookup_append, h]
    simp

theorem mem_of_lookup_eq_some {α : Type} (m : List (String × α)) (k : String)
    (v : α) (h : m.lookup k = some v) : (k, v) ∈ m := by
  obtain ⟨l₁, l₂, rfl, -⟩ := List.lookup_eq_some_iff.mp h
  simp

theorem lookup_eq_some_of_forall {α : Type} (m : List (String × α))
    (k : String) (v : α) (P : α → Prop) (hall : ∀ p ∈ m, P p.2)
    (h : m.lookup k = some v) : P v := by
  exact hall (k, v) (mem_of_lookup_eq_some m k v h)

theorem lookup_eq_some_of_mem_nodup {α : Type} (m : List (String × α))
    (k : String) (v : α) (hmem : (k, v) ∈ m) (hnodup : (m.map (·.1)).Nodup) :
    m.lookup k = some v := by
  induction m with
  | nil => simp at hmem
  | cons p t ih =>
    obtain ⟨a, b⟩ := p
    simp only [List.map_cons, List.nodup_cons] at hnodup
    rcases List.mem_cons.mp hmem with h | h
    · rw [← h]
      simp [List.lookup_cons]
    · have hp : a ≠ k := by
        intro hk
        exact hnodup.1 (by simpa [hk] using List.mem_map_of_mem (·.1) h)
      simp [List.lookup_cons, beq_false_of_ne (Ne.symm hp), ih h hnodup.2]

theorem lookup_foldl_dictInsert_keyfun {α : Type} (g : String → α)
    (keys : List String) (init : List (String × α)) (k : String) :
    (keys.foldl (fun m x => dictInsert m x (g x)) init).lookup k =
      if k ∈ keys then some (g k) else init.lookup k := by
  induction keys generalizing init with
  | nil => simp
  | cons x t ih =>
    rw [List.foldl_cons, ih]
    by_cases hk : k ∈ t
    · rw [if_pos hk, if_pos (List.mem_cons.mpr (Or.inr hk))]
    · rw [if_neg hk]
      by_cases hx : x = k
      · subst hx
        rw [lookup_dictInsert_self, if_pos (List.mem_cons.mpr (Or.inl rfl))]
      · rw [lookup_dictInsert_ne _ _ _ _ hx, if_neg
          (by simp only [List.mem_cons, not_or]
              exact ⟨fun hkx => hx hkx.symm, hk⟩)]

theorem lookup_foldl_dictInsert_not_mem {α β : Type} (key : β → String)
    (val : β → α) (l : List β) (init : List (String × α)) (k : String)
    (h : ∀ x ∈ l, key x ≠ k) :
    (l.foldl (fun m x => dictInsert m (key x) (val x)) init).lookup k =
      init.lookup k := by
  induction l generalizing init with
  | nil => simp
  | cons x t ih =>
    simp only [List.foldl_cons]
    rw [ih _ (fun y hy => h y (by simp [hy])),
      lookup_dictInsert_ne _ _ _ _ (h x (by simp))]

theorem foldl_preserves {α β : Type} (f : α → β → α) (P : α → Prop)
    (hf : ∀ a b, P a → P (f a b)) (l : List β) (a : α) (ha : P a) :
    P (l.foldl f a) := by
  induction l generalizing a with
  | nil => exact ha
  | cons x t ih => exact ih _ (hf _ _ ha)

theorem lookup_foldl_dictInsert_nodup {α β : Type} (key : β → String)
    (val : β → α) (l : List β) (init : List (String × α)) (b : β)
    (hb : b ∈ l) (hnodup : (l.map key).Nodup) :
    (l.foldl (fun m x => dictInsert m (key x) (val x)) init).lookup (key b) =
      some (val b) := by
  induction l generalizing init with
  | nil => simp at hb
  | cons x t ih =>
    simp only [List.map_cons, List.nodup_cons] at hnodup
    rcases List.mem_cons.mp hb with h | h
    · subst h
      simp only [List.foldl_cons]
      rw [lookup_foldl_dictInsert_not_mem key val t _ (key b)
        (fun y hy hxy => hnodup.1 (hxy ▸ List.mem_map_of_mem key hy)),
        lookup_dictInsert_self]
    · exact ih _ h hnodup.2

/-! ## Claim C2 — `find_duplicates` -/

theorem mem_findDuplicates (E : List Vec) (nrm : List ℚ) (t : ℚ) (i j : ℕ)
    (s : ℚ) :
    (i, j, s) ∈ findDuplicates E nrm t ↔
      i < j ∧ j < E.length ∧ s = entry (cosineSimilarityMatrix E nrm) i j ∧
        t < s := by
  unfold findDuplicates
  simp only [List.mem_flatMap, List.mem_filterMap, List.mem_range]
  constructor
  · rintro ⟨i', hi', j', hj', hsome⟩
    rw [List.mem_range'_1] at hj'
    by_cases hgt : entry (cosineSimilarityMatrix E nrm) i' j' > t
    · rw [if_pos hgt] at hsome
      simp only [Option.some.injEq, Prod.mk.injEq] at hsome
      obtain ⟨rfl, rfl, rfl⟩ := hsome
      exact ⟨by omega, by omega, rfl, hgt⟩
    · rw [if_neg hgt] at hsome
      exact absurd hsome (by simp)
  · rintro ⟨hij, hjn, rfl, hts⟩
    refine ⟨i, by omega, j, ?_, ?_⟩
    · rw [List.mem_range'_1]
      omega
    · rw [if_pos hts]

/-- C2: `find_duplicates` is monotone in its threshold (raising the
threshold never adds pairs); the returned triples are exactly the unordered
index pairs `i < j` whose similarity strictly exceeds the threshold,
annotated with that similarity; and fewer than 2 vectors give the empty
result. -/
theorem findDuplicates_spec (E : List Vec) (nrm : List ℚ) (t t1 t2 : ℚ)
    (p : ℕ × ℕ × ℚ) (h12 : t1 ≤ t2) :
    (p ∈ findDuplicates E nrm t2 → p ∈ findDuplicates E nrm t1) ∧
    (p ∈ findDuplicates E nrm t ↔
      p.1 < p.2.1 ∧ p.2.1 < E.length ∧
      p.2.2 = entry (cosineSimilarityMatrix E nrm) p.1 p.2.1 ∧ t < p.2.2) ∧
    (E.length < 2 → findDuplicates E nrm t = []) := by
  obtain ⟨i, j, s⟩ := p
  refine ⟨?_, mem_findDuplicates E nrm t i j s, ?_⟩
  · intro h
    rw [mem_findDuplicates] at h ⊢
    exact ⟨h.1, h.2.1, h.2.2.1, lt_of_le_of_lt h12 h.2.2.2⟩
  · intro hlen
    rcases E with _ | ⟨a, E'⟩
    · rfl
    · rcases E' with _ | ⟨b, E''⟩
      · rfl
      · simp only [List.length_cons] at hlen
        omega

theorem findDuplicates_spec_witness :
    (0, 1, (10 : ℚ) ^ 20 / (10 ^ 10 + 1) ^ 2) ∈
      findDuplicates [[1], [1]] [1, 1] (1 / 2) := by
  refine (findDuplicates_spec [[1], [1]] [1, 1] (1 / 2) (1 / 2) (3 / 4) _
    (by norm_num)).2.1.mpr ⟨by norm_num, by norm_num, ?_, by norm_num⟩
  norm_num [entry, cosineSimilarityMatrix, normalizeRow, dot, EPS]

/-! ## Claim C9 — extremity gate with an empty reference set -/

theorem listSum_of_all_eq_one (l : List ℚ) (hall : ∀ x ∈ l, x = 1) :
    l.sum = l.length := by
  induction l with
  | nil => simp
  | cons x t ih =>
    simp only [List.sum_cons, List.length_cons]
    rw [hall x (by simp), ih (fun y hy => hall y (by simp [hy]))]
    push_cast
    ring

theorem listMean_of_all_eq_one (l : List ℚ) (hne : ¬l.isEmpty = true)
    (hall : ∀ x ∈ l, x = 1) : listMean l = 1 := by
  unfold listMean
  rw [listSum_of_all_eq_one l hall, div_self]
  have : l ≠ [] := by simpa [List.isEmpty_iff] using hne
  exact_mod_cast (Nat.pos_of_ne_zero (by simpa [List.length_eq_zero] using this)).ne'

theorem extremityScoresOf_empty_ref (nrmOf : Vec → ℚ)
    (ebl : List (String × List String × List Vec)) (cid : String) :
    ∀ x ∈ extremityScoresOf nrmOf ebl [] cid, x = 1 := by
  intro x hx
  unfold extremityScoresOf at hx
  simp only [List.mem_filterMap] at hx
  obtain ⟨p, hp, hval⟩ := hx
  split at hval
  · cases hval
    rfl
  · cases hval

theorem finalPass_extremity_ones (llmRej : List (String × String))
    (dupIds boringIds : List String) (scoresOf : String → List ℚ)
    (hones : ∀ cid, ∀ x ∈ scoresOf cid, x = 1)
    (fs : List ExtractedFrame) (rs : ReasonMap) :
    finalPass llmRej dupIds boringIds (some scoresOf) EXTREMITY_MIN fs rs =
      finalPass llmRej dupIds boringIds none EXTREMITY_MIN fs rs := by
  induction fs generalizing rs with
  | nil => rfl
  | cons f t ih =>
    simp only [finalPass]
    by_cases h1 : (llmRej.lookup f.id).isSome
    · simp only [if_pos h1, ih]
    · rw [if_neg h1, if_neg h1]
      by_cases h2 : f.id ∈ dupIds
      · simp only [if_pos h2, ih]
      · rw [if_neg h2, if_neg h2]
        by_cases h3 : f.id ∈ boringIds
        · simp only [if_pos h3, ih]
        · rw [if_neg h3, if_neg h3]
          by_cases h4 : (scoresOf f.id).isEmpty
          · simp only [if_pos h4, ih]
          · rw [if_neg h4,
              listMean_of_all_eq_one _ h4 (hones f.id),
              if_neg (by norm_num [EXTREMITY_MIN])]
            simp only [ih]

/-- C9: `compute_extremity_score` returns exactly 1.0 against an empty
reference set, and therefore running the validator with an empty (zero-row)
reference set is indistinguishable from running it with no reference set at
all at the default extremity minimum: the extremity gate can never reject. -/
theorem extremity_gate_vacuous_on_empty_reference (nrmOf : Vec → ℚ)
    (emb : Vec) (frames : List ExtractedFrame) (languages : List String)
    (embed : String → Vec) (llmRej : List (String × String))
    (dupThreshold crossLangMax confMin : ℚ) :
    computeExtremityScore nrmOf emb [] = 1 ∧
    validateFrames frames (some []) languages embed nrmOf llmRej
        dupThreshold crossLangMax EXTREMITY_MIN confMin =
      validateFrames frames none languages embed nrmOf llmRej
        dupThreshold crossLangMax EXTREMITY_MIN confMin := by
  constructor
  · rfl
  · unfold validateFrames
    split
    · rfl
    · simp only [Option.map_some', Option.map_none']
      split
      · rfl
      · rw [finalPass_extremity_ones _ _ _ _
          (fun cid => extremityScoresOf_empty_ref nrmOf _ cid)]

/-! ## Claim C8 — weight bounds -/

theorem foldl_min_const (c : ℚ) (l : List ℚ) (h : ∀ x ∈ l, x = c) :
    l.foldl min c = c := by
  induction l with
  | nil => rfl
  | cons x t ih =>
    rw [List.foldl_cons, h x (by simp), min_self]
    exact ih (fun y hy => h y (by simp [hy]))

theorem foldl_max_const (c : ℚ) (l : List ℚ) (h : ∀ x ∈ l, x = c) :
    l.foldl max c = c := by
  induction l with
  | nil => rfl
  | cons x t ih =>
    rw [List.foldl_cons, h x (by simp), max_self]
    exact ih (fun y hy => h y (by simp [hy]))

/-- C8: both norm-based weights (`compute_embedding_weight` and
`UMAPProjector.calculate_weight`) always lie in `[0, 1]`, and when every
norm in the comparison set is equal (so the stored min/max stats coincide)
every weight is exactly 0.5. -/
theorem weights_in_unit_interval (nrmOf : Vec → ℚ) (emb : Vec)
    (all : List Vec) (minN maxN : ℚ) (hne : all ≠ []) :
    (0 ≤ computeEmbeddingWeight nrmOf emb all ∧
      computeEmbeddingWeight nrmOf emb all ≤ 1) ∧
    ((∀ v ∈ all, ∀ w ∈ all, nrmOf v = nrmOf w) →
      computeEmbeddingWeight nrmOf emb all = 1 / 2) ∧
    (0 ≤ calculateWeight nrmOf emb minN maxN ∧
      calculateWeight nrmOf emb minN maxN ≤ 1) ∧
    (minN = maxN → calculateWeight nrmOf emb minN maxN = 1 / 2) := by
  refine ⟨?_, ?_, ?_, ?_⟩
  · simp only [computeEmbeddingWeight]
    split
    · norm_num
    · unfold clip
      exact ⟨le_min (le_max_right _ _) (by norm_num), min_le_right _ _⟩
  · intro hcst
    rcases all with _ | ⟨a, rest⟩
    · exact absurd rfl hne
    · have hall : ∀ x ∈ rest.map nrmOf, x = nrmOf a := by
        intro x hx
        obtain ⟨v, hv, rfl⟩ := List.mem_map.mp hx
        exact hcst v (by simp [hv]) a (by simp)
      simp only [computeEmbeddingWeight, List.map_cons]
      rw [if_pos]
      rw [show ((nrmOf a :: rest.map nrmOf).min?) = some (nrmOf a) by
            simp [List.min?, foldl_min_const _ _ hall],
          show ((nrmOf a :: rest.map nrmOf).max?) = some (nrmOf a) by
            simp [List.max?, foldl_max_const _ _ hall]]
      norm_num
  · unfold calculateWeight
    split
    · norm_num
    · exact ⟨le_max_left _ _, max_le (by norm_num) (min_le_left _ _)⟩
  · intro h
    unfold calculateWeight
    rw [if_pos h.symm]

theorem weights_in_unit_interval_witness :
    computeEmbeddingWeight (fun _ => 3) [1] [[1], [2]] = 1 / 2 ∧
    calculateWeight (fun _ => 3) [1] 2 2 = 1 / 2 :=
  ⟨(weights_in_unit_interval (fun _ => 3) [1] [[1], [2]] 2 2 (by simp)).2.1
      (fun _ _ _ _ => rfl),
   (weights_in_unit_interval (fun _ => 3) [1] [[1], [2]] 2 2 (by simp)).2.2.2 rfl⟩

/-! ## Claim C10 — the density-ratio test never flags the reference language -/

theorem lookup_map_range_none {α : Type} (f : ℕ → α) (n i : ℕ)
    (hi : i ∉ List.range n) :
    ((List.range n).map (fun j => (j, f j))).lookup i = none := by
  rw [List.lookup_eq_none_iff]
  rintro ⟨j, vj⟩ hp
  simp only [List.mem_map] at hp
  obtain ⟨j', hj', heq⟩ := hp
  cases heq
  simp only [bne_iff_ne, ne_eq]
  intro h
  exact hi (h ▸ hj')

/-- C10: `detect_lacunae` only ever flags concepts in non-reference
languages: for every input and every concept index, the flag read back for
`"en"` is `False`. -/
theorem detectLacunae_en_never_flagged (langVectors : List (String × List Vec))
    (languages : List String) (knnAvg : String → List ℚ) (k : ℕ)
    (threshold : ℚ) (i : ℕ) :
    lacunaFlagLookup (detectLacunae langVectors languages knnAvg k threshold)
      i "en" = false := by
  simp only [detectLacunae]
  split
  · simp [lacunaFlagLookup]
  · unfold lacunaFlagLookup
    by_cases hi : i ∈ List.range ((langVectors.lookup "en").getD []).length
    · rw [List.lookup_graph _ hi, Option.getD_some]
      refine foldl_preserves _
        (fun m : List (String × Bool) => (m.lookup "en").getD false = false)
        ?_ languages [] rfl
      intro m lang hm
      by_cases hl : lang = "en"
      · subst hl
        rw [if_pos rfl, lookup_dictInsert_self]
        rfl
      · rw [if_neg hl]
        show ((dictInsert m lang _).lookup "en").getD false = false
        rw [lookup_dictInsert_ne _ _ _ _ hl]
        exact hm
    · rw [lookup_map_range_none _ _ _ hi]
      rfl

/-! ## Claim C1 — diagonal and symmetry of `cosine_similarity_matrix` -/

theorem dot_comm (a b : Vec) : dot a b = dot b a := by
  unfold dot
  congr 1
  induction a generalizing b with
  | nil => cases b <;> rfl
  | cons x t ih =>
    cases b with
    | nil => rfl
    | cons y u =>
      simp only [List.zipWith_cons_cons]
      rw [mul_comm x y, ih u]

theorem dot_map_div (v w : Vec) (c : ℚ) :
    dot (v.map (· / c)) (w.map (· / c)) = dot v w / (c * c) := by
  induction v generalizing w with
  | nil => simp [dot]
  | cons x t ih =>
    cases w with
    | nil => simp [dot]
    | cons y u =>
      simp only [List.map_cons, dot, List.zipWith_cons_cons, List.sum_cons]
      rw [show x / c * (y / c) = x * y / (c * c) by ring]
      have ihu := ih u
      unfold dot at ihu
      rw [ihu, div_add_div_same]

theorem zipWith_normalizeRow_getElem (E : List Vec) (nrm : List ℚ) (i : ℕ)
    (hE : i < E.length) (hn : i < nrm.length) :
    (List.zipWith normalizeRow E nrm)[i]? =
      some (normalizeRow (E.getD i []) (nrm.getD i 0)) := by
  induction E generalizing nrm i with
  | nil => simp at hE
  | cons v t ih =>
    cases nrm with
    | nil => simp at hn
    | cons s ns =>
      cases i with
      | zero => simp
      | succ i' =>
        simp only [List.zipWith_cons_cons, List.getElem?_cons_succ,
          List.getD_cons_succ]
        exact ih ns i' (by simpa using hE) (by simpa using hn)

theorem cosM_entry (E : List Vec) (nrm : List ℚ) (a b : ℕ)
    (hlen : nrm.length = E.length) (ha : a < E.length) (hb : b < E.length) :
    entry (cosineSimilarityMatrix E nrm) a b =
      dot (normalizeRow (E.getD a []) (nrm.getD a 0))
          (normalizeRow (E.getD b []) (nrm.getD b 0)) := by
  simp only [entry, cosineSimilarityMatrix, List.getD_eq_getElem?_getD]
  rw [List.getElem?_map, zipWith_normalizeRow_getElem E nrm a ha (by omega)]
  simp only [Option.map_some', Option.getD_some]
  rw [List.getElem?_map, zipWith_normalizeRow_getElem E nrm b hb (by omega)]
  simp

theorem cosM_entry_oob (E : List Vec) (nrm : List ℚ) (a b : ℕ)
    (hlen : nrm.length = E.length) (h : E.length ≤ a ∨ E.length ≤ b) :
    entry (cosineSimilarityMatrix E nrm) a b = 0 := by
  simp only [entry, cosineSimilarityMatrix, List.getD_eq_getElem?_getD]
  have hzlen : (List.zipWith normalizeRow E nrm).length = E.length := by
    simp [hlen]
  rcases lt_or_ge a E.length with ha | ha
  · have hb : E.length ≤ b := by rcases h with h' | h' <;> omega
    rw [List.getElem?_map, zipWith_normalizeRow_getElem E nrm a ha (by omega)]
    simp only [Option.map_some', Option.getD_some]
    rw [List.getElem?_map, List.getElem?_eq_none
      (show (List.zipWith normalizeRow E nrm).length ≤ b by omega)]
    rfl
  · rw [List.getElem?_map, List.getElem?_eq_none
      (show (List.zipWith normalizeRow E nrm).length ≤ a by omega)]
    rfl

theorem cosM_symm (E : List Vec) (nrm : List ℚ)
    (hlen : nrm.length = E.length) (a b : ℕ) :
    entry (cosineSimilarityMatrix E nrm) a b =
      entry (cosineSimilarityMatrix E nrm) b a := by
  rcases lt_or_ge a E.length with ha | ha
  · rcases lt_or_ge b E.length with hb | hb
    · rw [cosM_entry E nrm a b hlen ha hb, cosM_entry E nrm b a hlen hb ha,
        dot_comm]
    · rw [cosM_entry_oob E nrm a b hlen (Or.inr hb),
        cosM_entry_oob E nrm b a hlen (Or.inl hb)]
  · rw [cosM_entry_oob E nrm a b hlen (Or.inl ha),
      cosM_entry_oob E nrm b a hlen (Or.inr ha)]

/-- C1 counterexample: for the 1×1 zero matrix — a zero row whose true norm
is exactly 0 — the diagonal entry of `cosine_similarity_matrix` is 0, not 1
as the claim requires of zero rows. -/
theorem cosine_diag_counterexample :
    IsSqrt 0 (sumSq [(0 : ℚ)]) ∧
      entry (cosineSimilarityMatrix [[(0 : ℚ)]] [0]) 0 0 ≠ 1 := by
  constructor
  · exact ⟨le_refl 0, by norm_num [sumSq, dot]⟩
  · norm_num [entry, cosineSimilarityMatrix, normalizeRow, dot, EPS]

/-- C1 (amended): the matrix is exactly symmetric, and each diagonal entry
equals `‖v‖² / (‖v‖ + 1e-10)²`, which lies in `[0, 1)` — within epsilon
tolerance of 1 for rows of nonzero norm but never equal to 1, and exactly 0
for a zero row. -/
theorem cosineSimilarityMatrix_diag_symm (E : List Vec) (nrm : List ℚ)
    (i : ℕ) (hi : i < E.length) (hlen : nrm.length = E.length)
    (hs : IsSqrt (nrm.getD i 0) (sumSq (E.getD i []))) :
    (0 ≤ entry (cosineSimilarityMatrix E nrm) i i ∧
      entry (cosineSimilarityMatrix E nrm) i i < 1) ∧
    (sumSq (E.getD i []) = 0 → entry (cosineSimilarityMatrix E nrm) i i = 0) ∧
    (∀ a b, entry (cosineSimilarityMatrix E nrm) a b =
      entry (cosineSimilarityMatrix E nrm) b a) := by
  obtain ⟨hs0, hs2⟩ := hs
  have hdiag : entry (cosineSimilarityMatrix E nrm) i i =
      sumSq (E.getD i []) / ((nrm.getD i 0 + EPS) * (nrm.getD i 0 + EPS)) := by
    rw [cosM_entry E nrm i i hlen hi hi]
    unfold normalizeRow
    rw [dot_map_div]
    rfl
  have hEPS : (0 : ℚ) < EPS := by norm_num [EPS]
  have hden : 0 < (nrm.getD i 0 + EPS) * (nrm.getD i 0 + EPS) :=
    mul_pos (by linarith) (by linarith)
  refine ⟨⟨?_, ?_⟩, ?_, cosM_symm E nrm hlen⟩
  · rw [hdiag]
    exact div_nonneg (by rw [← hs2]; exact mul_self_nonneg _) (le_of_lt hden)
  · rw [hdiag, div_lt_one hden, ← hs2]
    nlinarith
  · intro h0
    rw [hdiag, h0, zero_div]

theorem cosineSimilarityMatrix_diag_symm_witness :
    0 ≤ entry (cosineSimilarityMatrix [[3, 4]] [5]) 0 0 ∧
      entry (cosineSimilarityMatrix [[3, 4]] [5]) 0 0 < 1 :=
  (cosineSimilarityMatrix_diag_symm [[3, 4]] [5] 0 (by norm_num) rfl
    ⟨by norm_num, by norm_num [sumSq, dot]⟩).1

/-! ## Claim C4 — dimensionality-reduction skip boundary -/

/-- C4 counterexample: with exactly 4 vectors (`N ≤ 4` by the claim) the
projector does NOT skip reduction: it calls the UMAP reducer with
`min(10, N−1) = 3` neighbors and returns the reducer's output, not the
all-zeros positions. -/
theorem projectLanguage_counterexample :
    projectLanguage (fun n _ => List.replicate 4 ((n : ℚ), (0 : ℚ)))
        [[1], [2], [3], [4]] 10 =
      [((3 : ℚ), (0 : ℚ)), (3, 0), (3, 0), (3, 0)] ∧
    [((3 : ℚ), (0 : ℚ)), (3, 0), (3, 0), (3, 0)] ≠
      [[1], [2], [3], [4]].map (fun _ => ((0 : ℚ), (0 : ℚ))) := by
  constructor
  · norm_num [projectLanguage, List.replicate]
  · norm_num

/-- C4 (amended): the projector skips reduction and emits the zero positions
exactly for N ≤ 3 (the source tests `len(vectors) < 4`); for every N ≥ 4,
including N = 4, it reduces with `min(configured_k, N − 1)` neighbors. -/
theorem projectLanguage_dispatch (reducer : ℕ → List Vec → List (ℚ × ℚ))
    (vectors : List Vec) (nNeighbors : ℕ) :
    (vectors.length ≤ 3 →
      projectLanguage reducer vectors nNeighbors =
        List.replicate vectors.length ((0 : ℚ), (0 : ℚ))) ∧
    (4 ≤ vectors.length →
      projectLanguage reducer vectors nNeighbors =
        reducer (min nNeighbors (vectors.length - 1)) vectors) := by
  constructor
  · intro h
    unfold projectLanguage
    rw [if_pos (by omega), List.map_const']
  · intro h
    unfold projectLanguage
    rw [if_neg (by omega)]

theorem projectLanguage_dispatch_witness :
    projectLanguage (fun n _ => [((n : ℚ), (0 : ℚ))]) [[1], [2]] 10 =
      List.replicate 2 ((0 : ℚ), (0 : ℚ)) ∧
    projectLanguage (fun n _ => [((n : ℚ), (0 : ℚ))]) [[1], [2], [3], [4], [5]] 7 =
      [((4 : ℚ), (0 : ℚ))] :=
  ⟨by simpa using (projectLanguage_dispatch _ [[1], [2]] 10).1 (by norm_num),
   by simpa using (projectLanguage_dispatch (fun n _ => [((n : ℚ), (0 : ℚ))])
      [[1], [2], [3], [4], [5]] 7).2 (by norm_num)⟩

/-! ## Claim C6 — divergence and CLAS of identical embeddings -/

/-- C6 counterexample: the unit vector `[1]` (true norm exactly 1)
duplicated across two languages has divergence `1e-10/(1 + 1e-10) ≠ 0` and
CLAS contribution `(1/(1 + 1e-10))² ≠ 1`: the epsilon in the denominators
keeps both strictly away from the claimed exact values. -/
theorem divergence_clas_identical_counterexample :
    IsSqrt 1 (sumSq [(1 : ℚ)]) ∧
    divergenceOf (fun _ => 1) ⟨"x", [("en", [1]), ("de", [1])]⟩
      ["en", "de"] ≠ 0 ∧
    clasContribution (fun _ => 1) [(1 : ℚ)] [1] ≠ 1 := by
  refine ⟨⟨by norm_num, by norm_num [sumSq, dot]⟩, ?_, ?_⟩
  · have hemb : (["en", "de"].filterMap
        (fun lang =>
          ([("en", [1]), ("de", [1])] : List (String × Vec)).lookup lang)) =
        [[1], [1]] := by
      simp [List.lookup_cons, show (("de" : String) == "en") = false from by decide]
    simp only [divergenceOf, hemb]
    norm_num [pairSims, listMean, dot, EPS]
  · norm_num [clasContribution, normalizeRow, dot, EPS]

/-- C6 (amended): for a concept whose embeddings in two languages are the
identical vector `v` of true norm `‖v‖`, the divergence equals
`1e-10 / (‖v‖² + 1e-10)` — strictly positive, never exactly 0 — and the
per-concept CLAS contribution equals `‖v‖² / (‖v‖ + 1e-10)²` — strictly
below 1, never exactly 1.0. -/
theorem divergence_clas_identical (nrmOf : Vec → ℚ) (v : Vec)
    (fid l1 l2 : String) (hne : l1 ≠ l2)
    (hs : IsSqrt (nrmOf v) (sumSq v)) :
    divergenceOf nrmOf ⟨fid, [(l1, v), (l2, v)]⟩ [l1, l2] =
      EPS / (sumSq v + EPS) ∧
    0 < divergenceOf nrmOf ⟨fid, [(l1, v), (l2, v)]⟩ [l1, l2] ∧
    clasContribution nrmOf v v =
      sumSq v / ((nrmOf v + EPS) * (nrmOf v + EPS)) ∧
    clasContribution nrmOf v v < 1 := by
  obtain ⟨hs0, hs2⟩ := hs
  have hEPS : (0 : ℚ) < EPS := by norm_num [EPS]
  have hsq : 0 ≤ sumSq v := by rw [← hs2]; exact mul_self_nonneg _
  have hpos : 0 < sumSq v + EPS := by linarith
  have hemb : ([l1, l2].filterMap
      (fun lang => ([(l1, v), (l2, v)] : List (String × Vec)).lookup lang)) =
      [v, v] := by
    simp [List.lookup_cons, beq_false_of_ne (Ne.symm hne)]
  have hd : dot v v = sumSq v := rfl
  have hdiv : divergenceOf nrmOf ⟨fid, [(l1, v), (l2, v)]⟩ [l1, l2] =
      EPS / (sumSq v + EPS) := by
    simp only [divergenceOf, hemb]
    rw [if_neg (by norm_num)]
    simp only [pairSims, List.map_cons, List.map_nil, List.append_nil,
      List.nil_append, List.singleton_append]
    simp only [listMean, List.sum_cons, List.sum_nil, List.length_cons,
      List.length_nil]
    rw [hd, hs2]
    have hne0 : (sumSq v + EPS) ≠ 0 := hpos.ne'
    field_simp
  have hclas : clasContribution nrmOf v v =
      sumSq v / ((nrmOf v + EPS) * (nrmOf v + EPS)) := by
    unfold clasContribution normalizeRow
    rw [dot_map_div, hd]
  refine ⟨hdiv, ?_, hclas, ?_⟩
  · rw [hdiv]
    exact div_pos hEPS hpos
  · rw [hclas, div_lt_one (mul_pos (by linarith) (by linarith)), ← hs2]
    nlinarith

theorem divergence_clas_identical_witness :
    divergenceOf (fun _ => 1) ⟨"c", [("en", [1]), ("de", [1])]⟩ ["en", "de"] =
      EPS / (sumSq [(1 : ℚ)] + EPS) ∧
    clasContribution (fun _ => 1) [(1 : ℚ)] [1] < 1 :=
  ⟨(divergence_clas_identical (fun _ => 1) [1] "c" "en" "de" (by decide)
      ⟨by norm_num, by norm_num [sumSq, dot]⟩).1,
   (divergence_clas_identical (fun _ => 1) [1] "c" "en" "de" (by decide)
      ⟨by norm_num, by norm_num [sumSq, dot]⟩).2.2.2⟩

/-! ## Claim C7 — detection-rate conventions -/

theorem dictInsert_of_fresh {α : Type} (m : List (String × α)) (k : String)
    (v : α) (h : ∀ q ∈ m, q.1 ≠ k) : dictInsert m k v = m ++ [(k, v)] := by
  unfold dictInsert
  rw [if_neg]
  intro hany
  obtain ⟨p, hp, hpk⟩ := List.any_eq_true.mp hany
  exact h p hp (by simpa using hpk)

theorem dictInsert_forall {α : Type} (P : α → Prop) (m : List (String × α))
    (k : String) (v : α) (hm : ∀ p ∈ m, P p.2) (hv : P v) :
    ∀ p ∈ dictInsert m k v, P p.2 := by
  unfold dictInsert
  split
  · intro p hp
    simp only [List.mem_map] at hp
    obtain ⟨q, hq, hpq⟩ := hp
    by_cases hqk : q.1 == k
    · rw [if_pos hqk] at hpq
      exact hpq ▸ hv
    · rw [if_neg hqk] at hpq
      exact hpq ▸ hm q hq
  · intro p hp
    rcases List.mem_append.mp hp with h' | h'
    · exact hm p h'
    · simp only [List.mem_singleton] at h'
      exact h' ▸ hv

theorem ghostScan_counts (weights : List (String × ℚ)) (wt : ℚ)
    (flags : List (String × Bool)) (acc : List (String × ℚ) × ℕ × ℕ)
    (hdisj : ∀ p ∈ flags, ∀ q ∈ acc.1, p.1 ≠ q.1)
    (hnodup : (flags.map (·.1)).Nodup)
    (hlen : acc.2.2 = acc.1.length)
    (hdet : acc.2.1 = (acc.1.filter (fun p => p.2 < wt)).length) :
    (flags.foldl (ghostScanStep weights wt) acc).2.2 =
      (flags.foldl (ghostScanStep weights wt) acc).1.length ∧
    (flags.foldl (ghostScanStep weights wt) acc).2.1 =
      ((flags.foldl (ghostScanStep weights wt) acc).1.filter
        (fun p => p.2 < wt)).length := by
  induction flags generalizing acc with
  | nil => exact ⟨hlen, hdet⟩
  | cons p rest ih =>
    obtain ⟨cid, flag⟩ := p
    simp only [List.map_cons, List.nodup_cons] at hnodup
    simp only [List.foldl_cons]
    cases flag with
    | false =>
      have hstep : ghostScanStep weights wt acc (cid, false) = acc := rfl
      rw [hstep]
      exact ih acc (fun q hq => hdisj q (by simp [hq])) hnodup.2 hlen hdet
    | true =>
      cases hlk : weights.lookup cid with
      | none =>
        have hstep : ghostScanStep weights wt acc (cid, true) = acc := by
          unfold ghostScanStep
          rw [hlk]
        rw [hstep]
        exact ih acc (fun q hq => hdisj q (by simp [hq])) hnodup.2 hlen hdet
      | some w =>
        have hstep : ghostScanStep weights wt acc (cid, true) =
            (dictInsert acc.1 cid w,
             (if w < wt then acc.2.1 + 1 else acc.2.1), acc.2.2 + 1) := by
          unfold ghostScanStep
          rw [hlk]
        rw [hstep]
        have hfresh : ∀ q ∈ acc.1, q.1 ≠ cid :=
          fun q hq => Ne.symm (hdisj (cid, true) (by simp) q hq)
        have hins : dictInsert acc.1 cid w = acc.1 ++ [(cid, w)] :=
          dictInsert_of_fresh _ _ _ hfresh
        refine ih _ ?_ hnodup.2 ?_ ?_
        · intro q hq r hr
          simp only [hins] at hr
          rcases List.mem_append.mp hr with h' | h'
          · exact hdisj q (by simp [hq]) r h'
          · simp only [List.mem_singleton] at h'
            subst h'
            intro hqc
            have hqc' : q.1 = cid := hqc
            apply hnodup.1
            rw [← hqc']
            exact List.mem_map_of_mem (fun x => x.1) hq
        · simp [hins, hlen]
        · simp only [hins, List.filter_append, List.length_append, hdet]
          by_cases hw : w < wt
          · simp [hw]
          · simp [hw]

theorem round4_one : round4 1 = 1 := by
  norm_num [round4, roundHalfEven]

/-- C7 counterexample: for a run of the benchmark suite's
`compute_ghost_detection_rate` with zero expected ghosts (one concept, not
a ghost), the reported rate is 0.0, not the claimed default 1.0. -/
theorem detection_rate_counterexample :
    (computeGhostDetectionRate (fun _ => 1) [[1]] ["a"] [("a", false)]
      (3 / 10)).1 = 0 ∧ ((0 : ℚ) ≠ 1) := by
  constructor
  · norm_num [computeGhostDetectionRate, ghostScanStep]
  · norm_num

theorem lacunaRateOk_mk (expected detected : List String) :
    LacunaRateOk ⟨round4 (if expected.isEmpty then 1
      else (detected.length : ℚ) / (max expected.length 1 : ℕ)),
      expected.length, detected.length⟩ := by
  constructor
  · intro h0
    simp only at h0 ⊢
    have hemp : expected.isEmpty = true := by
      rw [List.isEmpty_iff, ← List.length_eq_zero]
      exact h0
    rw [if_pos hemp, round4_one]
  · intro hpos
    simp only at hpos ⊢
    have hne : ¬expected.isEmpty = true := by
      rw [List.isEmpty_iff]
      intro he
      rw [he] at hpos
      simp at hpos
    rw [if_neg hne, Nat.max_eq_left (by omega)]

/-- C7 (amended): both implementations report `detected / expected` when at
least one lacuna/ghost is expected (`compute_lacuna_detection` rounds it to
4 decimals), but their zero-expected defaults disagree:
`compute_lacuna_detection` reports 1.0 while the benchmark suite's
`compute_ghost_detection_rate` reports 0.0. -/
theorem detection_rate_spec (nrm2 : ℚ × ℚ → ℚ)
    (modelConcepts : List (String × ModelConcept)) (conceptOrder : List String)
    (conceptMetas : List ConceptMeta) (languages : List String)
    (lang : String) (st : LanguageLacunaStats)
    (hst : (computeLacunaDetection nrm2 modelConcepts conceptOrder conceptMetas
      languages).perLanguage.lookup lang = some st)
    (nrmOf : Vec → ℚ) (embeddings : List Vec) (conceptIds : List String)
    (ghostFlags : List (String × Bool)) (wt : ℚ)
    (hnodup : (ghostFlags.map (·.1)).Nodup) :
    (st.expected = 0 → st.rate = 1) ∧
    (0 < st.expected → st.rate = round4 ((st.detected : ℚ) / st.expected)) ∧
    ((computeGhostDetectionRate nrmOf embeddings conceptIds ghostFlags wt).2
        = [] →
      (computeGhostDetectionRate nrmOf embeddings conceptIds ghostFlags wt).1
        = 0) ∧
    ((computeGhostDetectionRate nrmOf embeddings conceptIds ghostFlags wt).2
        ≠ [] →
      (computeGhostDetectionRate nrmOf embeddings conceptIds ghostFlags wt).1 =
        (((computeGhostDetectionRate nrmOf embeddings conceptIds ghostFlags
            wt).2.filter (fun p => p.2 < wt)).length : ℚ) /
        ((computeGhostDetectionRate nrmOf embeddings conceptIds ghostFlags
            wt).2.length : ℚ)) := by
  have hall : ∀ p ∈ (computeLacunaDetection nrm2 modelConcepts conceptOrder
      conceptMetas languages).perLanguage, LacunaRateOk p.2 := by
    simp only [computeLacunaDetection]
    refine foldl_preserves _
      (fun acc : List (String × LanguageLacunaStats) × ℚ × ℕ =>
        ∀ p ∈ acc.1, LacunaRateOk p.2)
      ?_ languages _ (by simp)
    intro acc l hacc
    exact dictInsert_forall LacunaRateOk acc.1 l _ hacc (lacunaRateOk_mk _ _)
  have hq := lookup_eq_some_of_forall _ lang st LacunaRateOk hall hst
  obtain ⟨hlenS, hdetS⟩ := ghostScan_counts
    ((conceptIds.zip embeddings).foldl (fun m p =>
      dictInsert m p.1 (computeEmbeddingWeight nrmOf p.2 embeddings)) [])
    wt ghostFlags ([], 0, 0) (by simp) hnodup rfl rfl
  refine ⟨hq.1, hq.2, ?_, ?_⟩
  · intro h2
    simp only [computeGhostDetectionRate] at h2 ⊢
    rw [if_neg (by rw [hlenS, h2]; simp)]
  · intro h2
    simp only [computeGhostDetectionRate] at h2 ⊢
    have hne0 : (ghostFlags.foldl (ghostScanStep
        ((conceptIds.zip embeddings).foldl (fun m p =>
          dictInsert m p.1 (computeEmbeddingWeight nrmOf p.2 embeddings)) [])
        wt) ([], 0, 0)).1.length ≠ 0 := by
      simpa [List.length_eq_zero] using h2
    rw [if_pos (by rw [hlenS]; omega), hdetS, hlenS]

theorem detection_rate_spec_witness :
    (⟨1, 1, 1⟩ : LanguageLacunaStats).rate =
      round4 (((1 : ℕ) : ℚ) / ((1 : ℕ) : ℚ)) :=
  (detection_rate_spec (fun _ => 0) [] ["c1"]
    [⟨"c1", "A", [("de", true)]⟩] ["de"] "de" ⟨1, 1, 1⟩
    (by norm_num [computeLacunaDetection, centroidPhase, detectionPhase,
      centroidsOf, meanPoint, lacunaFlagOf, clusterKeyOf, dictInsert,
      round4, roundHalfEven, List.lookup_cons])
    (fun _ => 1) [[1]] ["x"] [("x", true)] (3 / 10) (by simp)).2.1
    (by norm_num)

/-! ## Claim C5 — ghost-flag characterization -/

theorem ghostFlagFor_iff (fw : List (String × ℚ)) (languages : List String)
    (lang : String)
    (hothers : languages.filter (fun l => l != lang) ≠ []) :
    (ghostFlagFor fw languages (15 / 100) (5 / 2) lang = true ↔
      ((fw.lookup lang).getD (1 / 2) < 15 / 100 ∨
       ∃ m, ((languages.filter (fun l => l != lang)).map
           (fun l => (fw.lookup l).getD (1 / 2))).max? = some m ∧
         m > (5 / 2) * (fw.lookup lang).getD (1 / 2))) := by
  simp only [ghostFlagFor]
  by_cases h1 : (fw.lookup lang).getD (1 / 2) < 15 / 100
  · rw [if_pos h1]
    exact ⟨fun _ => Or.inl h1, fun _ => rfl⟩
  · rw [if_neg h1]
    have hne : ((languages.filter (fun l => l != lang)).map
        (fun l => (fw.lookup l).getD (1 / 2))) ≠ [] := by
      simpa using hothers
    obtain ⟨m, hm⟩ : ∃ m, ((languages.filter (fun l => l != lang)).map
        (fun l => (fw.lookup l).getD (1 / 2))).max? = some m := by
      cases hmax : ((languages.filter (fun l => l != lang)).map
          (fun l => (fw.lookup l).getD (1 / 2))).max? with
      | none => exact absurd (List.max?_eq_none_iff.mp hmax) hne
      | some m => exact ⟨m, rfl⟩
    simp only [hm]
    have hw0 : (0 : ℚ) < (fw.lookup lang).getD (1 / 2) := by linarith
    constructor
    · intro ht
      by_cases hc : m > 1 / 100 ∧ (fw.lookup lang).getD (1 / 2) > 1 / 100 ∧
          m / (fw.lookup lang).getD (1 / 2) > 5 / 2
      · refine Or.inr ⟨m, rfl, ?_⟩
        exact (lt_div_iff₀ hw0).mp hc.2.2
      · rw [if_neg hc] at ht
        exact absurd ht (by simp)
    · intro hr
      rcases hr with h1' | ⟨m', hm', hgt⟩
      · exact absurd h1' h1
      · injection hm' with e
        subst e
        rw [if_pos ⟨by linarith, by linarith, (lt_div_iff₀ hw0).mpr hgt⟩]

/-- C5: a concept is flagged ghost in language `L` exactly when its Weight
in `L` (default 0.5 when missing) is below the absolute threshold 0.15, or
the maximum Weight among the other languages exceeds 2.5 times it — either
condition alone suffices, and nothing else flags. -/
theorem ghost_status_iff (nrmOf : Vec → ℚ) (frames : List ValidatedFrame)
    (languages : List String) (f : ValidatedFrame) (lang : String)
    (hf : f ∈ frames) (hids : (frames.map (·.id)).Nodup)
    (hlang : lang ∈ languages)
    (hothers : languages.filter (fun l => l != lang) ≠ []) :
    (ghostLookup (determineGhostStatus nrmOf frames languages (15 / 100)
        (5 / 2)) f.id lang = true ↔
      ((((computeWeights nrmOf frames languages).lookup f.id).getD
          []).lookup lang).getD (1 / 2) < 15 / 100 ∨
      ∃ m, ((languages.filter (fun l => l != lang)).map (fun l =>
          ((((computeWeights nrmOf frames languages).lookup f.id).getD
            []).lookup l).getD (1 / 2))).max? = some m ∧
        m > (5 / 2) *
          ((((computeWeights nrmOf frames languages).lookup f.id).getD
            []).lookup lang).getD (1 / 2)) := by
  have hdef : determineGhostStatus nrmOf frames languages (15 / 100) (5 / 2) =
      frames.foldl (fun gs g => dictInsert gs g.id
        (languages.foldl (fun m lang' => dictInsert m lang'
          (ghostFlagFor
            (((computeWeights nrmOf frames languages).lookup g.id).getD [])
            languages (15 / 100) (5 / 2) lang')) [])) [] := rfl
  have houter := lookup_foldl_dictInsert_nodup (fun g : ValidatedFrame => g.id)
    (fun g => languages.foldl (fun m lang' => dictInsert m lang'
      (ghostFlagFor
        (((computeWeights nrmOf frames languages).lookup g.id).getD [])
        languages (15 / 100) (5 / 2) lang')) [])
    frames [] f hf hids
  unfold ghostLookup
  rw [hdef, houter, Option.getD_some,
    lookup_foldl_dictInsert_keyfun
      (fun lang' => ghostFlagFor
        (((computeWeights nrmOf frames languages).lookup f.id).getD [])
        languages (15 / 100) (5 / 2) lang')
      languages [] lang,
    if_pos hlang, Option.getD_some]
  exact ghostFlagFor_iff _ languages lang hothers

theorem ghost_status_iff_witness :
    ghostLookup (determineGhostStatus (fun _ => 1) [⟨"X", [("A", [1])]⟩]
      ["A", "B"] (15 / 100) (5 / 2)) "X" "A" = false := by
  rw [Bool.eq_false_iff]
  intro ht
  have hr := (ghost_status_iff (fun _ => 1) [⟨"X", [("A", [1])]⟩] ["A", "B"]
    ⟨"X", [("A", [1])]⟩ "A" (by simp) (by simp) (by simp) (by simp)).mp ht
  have hweights : computeWeights (fun _ => 1) [⟨"X", [("A", [1])]⟩]
      ["A", "B"] = [("X", [("A", 1 / 2)])] := by
    norm_num +decide [computeWeights, gatherLang, computeEmbeddingWeight, clip,
      dictInsert, List.lookup_cons, List.min?, List.max?, Function.comp,
      List.filterMap_cons]
  rw [hweights] at hr
  rcases hr with h | ⟨m, hm, hgt⟩
  · norm_num +decide [List.lookup_cons] at h
  · norm_num +decide [List.lookup_cons, List.max?, List.filter_cons,
      show (("B" : String) != "A") = true from by simp,
      show (("A" : String) != "A") = false from by simp,
      show (("B" : String) == "A") = false from by simp,
      show (("X" : String) == "X") = true from by simp] at hm
    norm_num +decide [List.lookup_cons, List.max?,
      show (("B" : String) == "A") = false from by simp] at hgt
    linarith

/-! ## Claim C3 — gate order, disjointness, reason precedence -/

theorem confidencePass_confident_mem (cf : ℚ) (frames : List ExtractedFrame)
    (g : ExtractedFrame) (hg : g ∈ (confidencePass cf frames).1) :
    ¬g.confidence < cf := by
  induction frames with
  | nil => simp [confidencePass] at hg
  | cons f t ih =>
    simp only [confidencePass] at hg
    split at hg
    · exact ih hg
    · rcases List.mem_cons.mp hg with h | h
      · subst h
        assumption
      · exact ih h

theorem confidencePass_rejected_mem (cf : ℚ) (frames : List ExtractedFrame)
    (g : ExtractedFrame) (hg : g ∈ (confidencePass cf frames).2.1) :
    g.confidence < cf := by
  induction frames with
  | nil => simp [confidencePass] at hg
  | cons f t ih =>
    simp only [confidencePass] at hg
    split at hg
    · rcases List.mem_cons.mp hg with h | h
      · subst h
        assumption
      · exact ih h
    · exact ih hg

theorem llmUpdate_lookup (rs : ReasonMap) (llmRej : List (String × String))
    (cid msg : String) (hnodup : (llmRej.map (·.1)).Nodup)
    (hmsg : llmRej.lookup cid = some msg) :
    (llmUpdate rs llmRej).lookup cid = some (.llm msg) := by
  have hmem := mem_of_lookup_eq_some llmRej cid msg hmsg
  exact lookup_foldl_dictInsert_nodup (fun p : String × String => p.1)
    (fun p => Reason.llm p.2) llmRej rs (cid, msg) hmem hnodup

theorem duplicatePassLang_preserves (ids : List String) (lang : String)
    (l : List (ℕ × ℕ × ℚ)) (acc : List String × ReasonMap)
    (cid : String) (v : Reason) (h : acc.2.lookup cid = some v) :
    (duplicatePassLang ids lang l acc).2.lookup cid = some v := by
  induction l generalizing acc with
  | nil => exact h
  | cons p rest ih =>
    obtain ⟨i, j, sim⟩ := p
    obtain ⟨dupIds, rs⟩ := acc
    simp only [duplicatePassLang]
    exact ih _ (lookup_dictInsertIfAbsent_some rs cid _ v _ h)

theorem duplicatePass_preserves (nrmOf : Vec → ℚ) (dt : ℚ)
    (ebl : List (String × List String × List Vec))
    (acc : List String × ReasonMap) (cid : String) (v : Reason)
    (h : acc.2.lookup cid = some v) :
    (duplicatePass nrmOf dt ebl acc).2.lookup cid = some v := by
  induction ebl generalizing acc with
  | nil => exact h
  | cons e rest ih =>
    obtain ⟨lang, ids, E⟩ := e
    simp only [duplicatePass]
    exact ih _ (duplicatePassLang_preserves ids lang _ acc cid v h)

theorem boringPass_preserves (cm : ℚ) (l : List (String × ℚ))
    (acc : List String × ReasonMap) (cid : String)
    (hno : ∀ s', (cid, s') ∈ l → ¬s' > cm) :
    (boringPass cm l acc).2.lookup cid = acc.2.lookup cid := by
  induction l generalizing acc with
  | nil => rfl
  | cons p rest ih =>
    obtain ⟨c', s'⟩ := p
    obtain ⟨bIds, rs⟩ := acc
    simp only [boringPass]
    split
    · rename_i hgt
      have hc : c' ≠ cid := by
        intro he
        exact hno s' (by simp [he]) hgt
      rw [ih _ (fun t ht => hno t (by simp [ht]))]
      exact lookup_dictInsert_ne rs cid c' _ hc
    · exact ih _ (fun t ht => hno t (by simp [ht]))

theorem boringPass_ids_mono (cm : ℚ) (l : List (String × ℚ))
    (acc : List String × ReasonMap) (x : String) (hx : x ∈ acc.1) :
    x ∈ (boringPass cm l acc).1 := by
  induction l generalizing acc with
  | nil => exact hx
  | cons p rest ih =>
    obtain ⟨c', s'⟩ := p
    obtain ⟨bIds, rs⟩ := acc
    simp only [boringPass]
    split
    · exact ih _ (by simp [hx])
    · exact ih _ hx

theorem boringPass_sets (cm : ℚ) (l : List (String × ℚ))
    (acc : List String × ReasonMap) (cid : String) (s : ℚ)
    (hnodup : (l.map (·.1)).Nodup) (hmem : (cid, s) ∈ l) (hgt : s > cm) :
    (boringPass cm l acc).2.lookup cid =
      some (.noStructuralDifference s cm) ∧
    cid ∈ (boringPass cm l acc).1 := by
  induction l generalizing acc with
  | nil => simp at hmem
  | cons p rest ih =>
    obtain ⟨c', s'⟩ := p
    obtain ⟨bIds, rs⟩ := acc
    simp only [List.map_cons, List.nodup_cons] at hnodup
    rcases List.mem_cons.mp hmem with h | h
    · obtain ⟨he1, he2⟩ := Prod.mk.injEq .. ▸ h
      subst he1
      subst he2
      simp only [boringPass, if_pos hgt]
      have hrest : ∀ s', (cid, s') ∈ rest → ¬s' > cm := by
        intro t ht _
        exact hnodup.1 (by simpa using List.mem_map_of_mem (fun x => x.1) ht)
      constructor
      · rw [boringPass_preserves cm rest _ cid hrest]
        exact lookup_dictInsert_self rs cid _
      · exact boringPass_ids_mono cm rest _ cid (by simp)
    · have hc : c' ≠ cid := by
        intro he
        exact hnodup.1
          (by simpa [he] using List.mem_map_of_mem (fun x => x.1) h)
      simp only [boringPass]
      split
      · exact ih _ hnodup.2 h
      · exact ih _ hnodup.2 h

theorem keysInOrder_nodup {α : Type} (ps : List (String × α)) :
    (keysInOrder ps).Nodup := by
  unfold keysInOrder
  refine foldl_preserves _ (fun acc : List String => acc.Nodup) ?_ ps []
    (by simp)
  intro acc p hacc
  by_cases h : p.1 ∈ acc
  · simpa [h] using hacc
  · simp only [h, if_false]
    simpa [List.nodup_append, h] using hacc

theorem map_fst_filterMap_key {α : Type} (P : String → Prop)
    [DecidablePred P] (v : String → α) (l : List String) :
    ((l.filterMap (fun k => if P k then none else some (k, v k))).map
      (·.1)).Sublist l := by
  induction l with
  | nil => simp
  | cons k t ih =>
    by_cases h : P k
    · simp only [List.filterMap_cons, if_pos h]
      exact ih.cons k
    · simp only [List.filterMap_cons, if_neg h, List.map_cons]
      exact ih.cons₂ k

theorem crossSims_keys_nodup (nrmOf : Vec → ℚ)
    (ebl : List (String × List String × List Vec)) (languages : List String) :
    ((crossLanguageSimilarities nrmOf ebl languages).map (·.1)).Nodup := by
  unfold crossLanguageSimilarities
  split
  · simp
  · refine List.Nodup.sublist ?_ (keysInOrder_nodup (allLangPairs ebl))
    exact map_fst_filterMap_key
      (fun cid => ((langEmbsOf (allLangPairs ebl) cid).map (·.2)).length < 2)
      (fun cid => listMean (pairSims nrmOf
        ((langEmbsOf (allLangPairs ebl) cid).map (·.2)))) _

theorem crossSims_nil (nrmOf : Vec → ℚ) (embed : String → Vec)
    (languages : List String) :
    crossLanguageSimilarities nrmOf (embeddingsByLang [] embed languages)
      languages = [] := by
  have h1 : embeddingsByLang [] embed languages = [] := by
    simp [embeddingsByLang]
  rw [h1]
  unfold crossLanguageSimilarities
  split
  · rfl
  · simp [allLangPairs, keysInOrder]

theorem finalPass_mem_valid (llmRej : List (String × String))
    (dupIds boringIds : List String) (extScores : Option (String → List ℚ))
    (em : ℚ) (fs : List ExtractedFrame) (rs : ReasonMap) (g : ExtractedFrame)
    (hg : g ∈ (finalPass llmRej dupIds boringIds extScores em fs rs).1) :
    g ∈ fs ∧ ¬finalRejects llmRej dupIds boringIds extScores em g.id := by
  induction fs generalizing rs with
  | nil => simp [finalPass] at hg
  | cons f t ih =>
    cases extScores with
    | none =>
      simp only [finalPass] at hg
      by_cases h1 : (llmRej.lookup f.id).isSome
      · rw [if_pos h1] at hg
        exact (ih rs hg).imp (List.mem_cons_of_mem f) (fun h => h)
      · rw [if_neg h1] at hg
        by_cases h2 : f.id ∈ dupIds
        · rw [if_pos h2] at hg
          exact (ih rs hg).imp (List.mem_cons_of_mem f) (fun h => h)
        · rw [if_neg h2] at hg
          by_cases h3 : f.id ∈ boringIds
          · rw [if_pos h3] at hg
            exact (ih rs hg).imp (List.mem_cons_of_mem f) (fun h => h)
          · rw [if_neg h3] at hg
            rcases List.mem_cons.mp hg with rfl | hm
            · refine ⟨List.mem_cons_self _ _, ?_⟩
              rintro (hc | hc | hc | ⟨sc, hsc, -, -⟩)
              · exact h1 hc
              · exact h2 hc
              · exact h3 hc
              · exact Option.noConfusion hsc
            · exact (ih rs hm).imp (List.mem_cons_of_mem f) (fun h => h)
    | some sc =>
      simp only [finalPass] at hg
      by_cases h1 : (llmRej.lookup f.id).isSome
      · rw [if_pos h1] at hg
        exact (ih rs hg).imp (List.mem_cons_of_mem f) (fun h => h)
      · rw [if_neg h1] at hg
        by_cases h2 : f.id ∈ dupIds
        · rw [if_pos h2] at hg
          exact (ih rs hg).imp (List.mem_cons_of_mem f) (fun h => h)
        · rw [if_neg h2] at hg
          by_cases h3 : f.id ∈ boringIds
          · rw [if_pos h3] at hg
            exact (ih rs hg).imp (List.mem_cons_of_mem f) (fun h => h)
          · rw [if_neg h3] at hg
            by_cases h4 : (sc f.id).isEmpty
            · rw [if_pos h4] at hg
              rcases List.mem_cons.mp hg with rfl | hm
              · refine ⟨List.mem_cons_self _ _, ?_⟩
                rintro (hc | hc | hc | ⟨sc', hsc, hne, -⟩)
                · exact h1 hc
                · exact h2 hc
                · exact h3 hc
                · obtain rfl := Option.some.inj hsc
                  rw [h4] at hne
                  exact Bool.noConfusion hne
              · exact (ih rs hm).imp (List.mem_cons_of_mem f) (fun h => h)
            · rw [if_neg h4] at hg
              by_cases h5 : listMean (sc f.id) < em
              · rw [if_pos h5] at hg
                exact (ih _ hg).imp (List.mem_cons_of_mem f) (fun h => h)
              · rw [if_neg h5] at hg
                rcases List.mem_cons.mp hg with rfl | hm
                · refine ⟨List.mem_cons_self _ _, ?_⟩
                  rintro (hc | hc | hc | ⟨sc', hsc, -, hlt⟩)
                  · exact h1 hc
                  · exact h2 hc
                  · exact h3 hc
                  · obtain rfl := Option.some.inj hsc
                    exact h5 hlt
                · exact (ih rs hm).imp (List.mem_cons_of_mem f) (fun h => h)

theorem finalPass_mem_rejected (llmRej : List (String × String))
    (dupIds boringIds : List String) (extScores : Option (String → List ℚ))
    (em : ℚ) (fs : List ExtractedFrame) (rs : ReasonMap) (g : ExtractedFrame)
    (hg : g ∈ (finalPass llmRej dupIds boringIds extScores em fs rs).2.1) :
    finalRejects llmRej dupIds boringIds extScores em g.id := by
  induction fs generalizing rs with
  | nil => simp [finalPass] at hg
  | cons f t ih =>
    cases extScores with
    | none =>
      simp only [finalPass] at hg
      by_cases h1 : (llmRej.lookup f.id).isSome
      · rw [if_pos h1] at hg
        rcases List.mem_cons.mp hg with rfl | hm
        · exact Or.inl h1
        · exact ih rs hm
      · rw [if_neg h1] at hg
        by_cases h2 : f.id ∈ dupIds
        · rw [if_pos h2] at hg
          rcases List.mem_cons.mp hg with rfl | hm
          · exact Or.inr (Or.inl h2)
          · exact ih rs hm
        · rw [if_neg h2] at hg
          by_cases h3 : f.id ∈ boringIds
          · rw [if_pos h3] at hg
            rcases List.mem_cons.mp hg with rfl | hm
            · exact Or.inr (Or.inr (Or.inl h3))
            · exact ih rs hm
          · rw [if_neg h3] at hg
            exact ih rs hg
    | some sc =>
      simp only [finalPass] at hg
      by_cases h1 : (llmRej.lookup f.id).isSome
      · rw [if_pos h1] at hg
        rcases List.mem_cons.mp hg with rfl | hm
        · exact Or.inl h1
        · exact ih rs hm
      · rw [if_neg h1] at hg
        by_cases h2 : f.id ∈ dupIds
        · rw [if_pos h2] at hg
          rcases List.mem_cons.mp hg with rfl | hm
          · exact Or.inr (Or.inl h2)
          · exact ih rs hm
        · rw [if_neg h2] at hg
          by_cases h3 : f.id ∈ boringIds
          · rw [if_pos h3] at hg
            rcases List.mem_cons.mp hg with rfl | hm
            · exact Or.inr (Or.inr (Or.inl h3))
            · exact ih rs hm
          · rw [if_neg h3] at hg
            by_cases h4 : (sc f.id).isEmpty
            · rw [if_pos h4] at hg
              exact ih rs hg
            · rw [if_neg h4] at hg
              by_cases h5 : listMean (sc f.id) < em
              · rw [if_pos h5] at hg
                rcases List.mem_cons.mp hg with rfl | hm
                · exact Or.inr (Or.inr (Or.inr
                    ⟨sc, rfl, by simpa using h4, h5⟩))
                · exact ih _ hm
              · rw [if_neg h5] at hg
                exact ih rs hg

theorem finalPass_reasons_frozen (llmRej : List (String × String))
    (dupIds boringIds : List String) (extScores : Option (String → List ℚ))
    (em : ℚ) (fs : List ExtractedFrame) (rs : ReasonMap) (cid : String)
    (hcid : (llmRej.lookup cid).isSome = true ∨ cid ∈ dupIds ∨
      cid ∈ boringIds) :
    (finalPass llmRej dupIds boringIds extScores em fs rs).2.2.lookup cid =
      rs.lookup cid := by
  induction fs generalizing rs with
  | nil => rfl
  | cons f t ih =>
    cases extScores with
    | none =>
      simp only [finalPass]
      by_cases h1 : (llmRej.lookup f.id).isSome
      · rw [if_pos h1]
        exact ih rs
      · rw [if_neg h1]
        by_cases h2 : f.id ∈ dupIds
        · rw [if_pos h2]
          exact ih rs
        · rw [if_neg h2]
          by_cases h3 : f.id ∈ boringIds
          · rw [if_pos h3]
            exact ih rs
          · rw [if_neg h3]
            exact ih rs
    | some sc =>
      simp only [finalPass]
      by_cases h1 : (llmRej.lookup f.id).isSome
      · rw [if_pos h1]
        exact ih rs
      · rw [if_neg h1]
        by_cases h2 : f.id ∈ dupIds
        · rw [if_pos h2]
          exact ih rs
        · rw [if_neg h2]
          by_cases h3 : f.id ∈ boringIds
          · rw [if_pos h3]
            exact ih rs
          · rw [if_neg h3]
            by_cases h4 : (sc f.id).isEmpty
            · rw [if_pos h4]
              exact ih rs
            · rw [if_neg h4]
              by_cases h5 : listMean (sc f.id) < em
              · rw [if_pos h5]
                have hne : f.id ≠ cid := by
                  rintro rfl
                  rcases hcid with hc | hc | hc
                  · exact h1 hc
                  · exact h2 hc
                  · exact h3 hc
                rw [ih _]
                exact lookup_dictInsert_ne rs cid f.id _ hne
              · rw [if_neg h5]
                exact ih rs

/-- C3 (amended): the valid and rejected outputs of `validate_frames` are
disjoint, but the first-applicable-reason rule fails at the cross-language
gate: (i) valid and rejected never share a frame; (ii) any concept whose
cross-language similarity exceeds the ceiling always ends up with the
cross-language reason, even if the LLM or duplicate gate had already
recorded one (validator.py:314 overwrites unconditionally); (iii) an LLM
rejection reason does survive the duplicate gate (validator.py:295 checks
before writing) and is the recorded reason whenever the cross-language gate
does not fire for that concept. -/
theorem validateFrames_gate_precedence
    (frames : List ExtractedFrame) (reference : Option (List Vec))
    (languages : List String) (embed : String → Vec) (nrmOf : Vec → ℚ)
    (llmRej : List (String × String)) (dt cm em cf : ℚ) (cid msg : String)
    (s : ℚ) :
    (∀ g ∈ (validateFrames frames reference languages embed nrmOf llmRej
        dt cm em cf).valid,
      g ∉ (validateFrames frames reference languages embed nrmOf llmRej
        dt cm em cf).rejected) ∧
    ((crossLanguageSimilarities nrmOf
        (embeddingsByLang (confidencePass cf frames).1 embed languages)
        languages).lookup cid = some s → s > cm →
      (validateFrames frames reference languages embed nrmOf llmRej
        dt cm em cf).rejectionReasons.lookup cid =
        some (.noStructuralDifference s cm)) ∧
    ((llmRej.map (·.1)).Nodup → llmRej.lookup cid = some msg →
      ¬(confidencePass cf frames).1.isEmpty →
      (∀ s', (crossLanguageSimilarities nrmOf
          (embeddingsByLang (confidencePass cf frames).1 embed languages)
          languages).lookup cid = some s' → ¬s' > cm) →
      (validateFrames frames reference languages embed nrmOf llmRej
        dt cm em cf).rejectionReasons.lookup cid = some (.llm msg)) := by
  by_cases hfe : frames.isEmpty
  · have hf : frames = [] := by simpa using hfe
    subst hf
    refine ⟨?_, ?_, ?_⟩
    · intro g hg
      simp [validateFrames] at hg
    · intro hcs
      rw [show (confidencePass cf ([] : List ExtractedFrame)).1 = []
          from rfl, crossSims_nil] at hcs
      simp at hcs
    · intro _ _ hne _
      exact absurd rfl hne
  · by_cases hce : (confidencePass cf frames).1.isEmpty
    · have hc : (confidencePass cf frames).1 = [] := by simpa using hce
      refine ⟨?_, ?_, ?_⟩
      · intro g hg
        simp only [validateFrames, if_neg hfe, if_pos hce] at hg
        simp at hg
      · intro hcs
        rw [hc, crossSims_nil] at hcs
        simp at hcs
      · intro _ _ hne _
        exact absurd hce hne
    · refine ⟨?_, ?_, ?_⟩
      · intro g hg hg'
        simp only [validateFrames, if_neg hfe, if_neg hce] at hg hg'
        obtain ⟨hmem, hnr⟩ := finalPass_mem_valid _ _ _ _ _ _ _ _ hg
        rcases List.mem_append.mp hg' with h | h
        · exact confidencePass_confident_mem cf frames g hmem
            (confidencePass_rejected_mem cf frames g h)
        · exact hnr (finalPass_mem_rejected _ _ _ _ _ _ _ _ h)
      · intro hcs hgt
        simp only [validateFrames, if_neg hfe, if_neg hce]
        have hnodup := crossSims_keys_nodup nrmOf
          (embeddingsByLang (confidencePass cf frames).1 embed languages)
          languages
        have hmem := mem_of_lookup_eq_some _ cid s hcs
        have hb := boringPass_sets cm
          (crossLanguageSimilarities nrmOf
            (embeddingsByLang (confidencePass cf frames).1 embed languages)
            languages)
          ([], (duplicatePass nrmOf dt
            (embeddingsByLang (confidencePass cf frames).1 embed languages)
            ([], llmUpdate (confidencePass cf frames).2.2 llmRej)).2)
          cid s hnodup hmem hgt
        rw [finalPass_reasons_frozen _ _ _ _ _ _ _ _
          (Or.inr (Or.inr hb.2))]
        exact hb.1
      · intro hnd hmsg hne hnoboring
        simp only [validateFrames, if_neg hfe, if_neg hce]
        have h1 : (llmUpdate (confidencePass cf frames).2.2 llmRej).lookup cid
            = some (.llm msg) :=
          llmUpdate_lookup (confidencePass cf frames).2.2 llmRej cid msg
            hnd hmsg
        have h2 := duplicatePass_preserves nrmOf dt
          (embeddingsByLang (confidencePass cf frames).1 embed languages)
          ([], llmUpdate (confidencePass cf frames).2.2 llmRej) cid _ h1
        have hno : ∀ s', (cid, s') ∈ crossLanguageSimilarities nrmOf
            (embeddingsByLang (confidencePass cf frames).1 embed languages)
            languages → ¬s' > cm := by
          intro s' hmem' hgt'
          exact hnoboring s'
            (lookup_eq_some_of_mem_nodup _ cid s' hmem'
              (crossSims_keys_nodup nrmOf _ languages)) hgt'
        have h3 := (boringPass_preserves cm
          (crossLanguageSimilarities nrmOf
            (embeddingsByLang (confidencePass cf frames).1 embed languages)
            languages)
          ([], (duplicatePass nrmOf dt
            (embeddingsByLang (confidencePass cf frames).1 embed languages)
            ([], llmUpdate (confidencePass cf frames).2.2 llmRej)).2)
          cid hno).trans h2
        rw [finalPass_reasons_frozen _ _ _ _ _ _ _ _
          (Or.inl (by rw [hmsg]; rfl))]
        exact h3

theorem validateFrames_gate_precedence_witness :
    (validateFrames [⟨"f1", 9 / 10, []⟩] none ["en"] (fun _ => [1])
      (fun _ => 1) [("f1", "bad")] DUPLICATE_THRESHOLD
      CROSS_LANG_SIMILARITY_MAX EXTREMITY_MIN
      CONFIDENCE_MIN).rejectionReasons.lookup "f1" = some (.llm "bad") :=
  (validateFrames_gate_precedence [⟨"f1", 9 / 10, []⟩] none ["en"]
      (fun _ => [1]) (fun _ => 1) [("f1", "bad")] DUPLICATE_THRESHOLD
      CROSS_LANG_SIMILARITY_MAX EXTREMITY_MIN CONFIDENCE_MIN "f1" "bad"
      0).2.2
    (by simp)
    (by simp +decide [List.lookup_cons])
    (by norm_num [confidencePass, CONFIDENCE_MIN])
    (by
      intro s' hs'
      simp [crossLanguageSimilarities] at hs')

set_option maxHeartbeats 2000000 in
/-- C3 counterexample: two confident frames whose definitions all embed to
the same vector.  The duplicate gate records a duplicate reason for "f2"
(first conjunct), yet the validator's final rejection reason for "f2" is the
cross-language one (second conjunct): validator.py:314 overwrote the
duplicate gate's earlier reason, so the first applicable gate does not
win. -/
theorem validator_reason_overwrite_counterexample :
    (duplicatePass (fun _ => 1) DUPLICATE_THRESHOLD
        (embeddingsByLang
          [⟨"f1", 9 / 10, [("en", "a"), ("de", "b")]⟩,
           ⟨"f2", 9 / 10, [("en", "c"), ("de", "d")]⟩]
          (fun _ => [1]) ["en", "de"]) ([], [])).2.lookup "f2" =
      some (.duplicate "f1" "en" (10 ^ 20 / (10 ^ 10 + 1) ^ 2)) ∧
    (validateFrames
        [⟨"f1", 9 / 10, [("en", "a"), ("de", "b")]⟩,
         ⟨"f2", 9 / 10, [("en", "c"), ("de", "d")]⟩]
        none ["en", "de"] (fun _ => [1]) (fun _ => 1) []
        DUPLICATE_THRESHOLD CROSS_LANG_SIMILARITY_MAX EXTREMITY_MIN
        CONFIDENCE_MIN).rejectionReasons.lookup "f2" =
      some (.noStructuralDifference (10 ^ 10 / (10 ^ 10 + 1))
        CROSS_LANG_SIMILARITY_MAX) := by
  constructor
  · norm_num +decide [embeddingsByLang, duplicatePass, duplicatePassLang,
      findDuplicates, cosineSimilarityMatrix, normalizeRow, dot, entry,
      dictInsertIfAbsent, EPS, DUPLICATE_THRESHOLD, List.lookup_cons,
      show (("en" : String) == "en") = true from by simp,
      show (("de" : String) == "en") = false from by simp,
      show (("de" : String) == "de") = true from by simp,
      show (("en" : String) == "de") = false from by simp,
      show (("f1" : String) == "f1") = true from by simp,
      show (("f1" : String) == "f2") = false from by simp,
      show (("f2" : String) == "f1") = false from by simp,
      show (("f2" : String) == "f2") = true from by simp,
      List.filterMap_cons, List.flatMap_cons, List.flatMap_nil,
      show List.range 2 = [0, 1] from rfl,
      show List.range' 1 1 = [1] from rfl,
      show List.range' 2 0 = [] from rfl]
  · norm_num +decide [validateFrames, confidencePass, CONFIDENCE_MIN,
      llmUpdate, embeddingsByLang, duplicatePass, duplicatePassLang,
      findDuplicates, cosineSimilarityMatrix, normalizeRow, dot, entry,
      crossLanguageSimilarities, allLangPairs, keysInOrder, langEmbsOf,
      pairSims, listMean, boringPass, finalPass, dictInsert,
      dictInsertIfAbsent, EPS, DUPLICATE_THRESHOLD,
      CROSS_LANG_SIMILARITY_MAX, List.lookup_cons, List.lookup_nil,
      show (("en" : String) == "en") = true from by simp,
      show (("de" : String) == "en") = false from by simp,
      show (("de" : String) == "de") = true from by simp,
      show (("en" : String) == "de") = false from by simp,
      show (("f1" : String) == "f1") = true from by simp,
      show (("f1" : String) == "f2") = false from by simp,
      show (("f2" : String) == "f1") = false from by simp,
      show (("f2" : String) == "f2") = true from by simp,
      List.filterMap_cons, List.flatMap_cons, List.flatMap_nil,
      Option.map_none',
      show List.range 2 = [0, 1] from rfl,
      show List.range' 1 1 = [1] from rfl,
      show List.range' 2 0 = [] from rfl]
